import Mathlib

/-!
Verification development for the Lexigraph meeting-intelligence pipeline.

The definitions below are a shallow embedding of the Python sources:
  - src/src/models/entities.py       (pydantic entity records)
  - src/src/graph/neo4j_client.py    (node/relationship creation against Neo4j)
  - src/src/agents/graph_builder.py  (GraphBuilderAgent.build_graph)
  - src/src/agents/query_agent.py    (QueryAgent: cypher cleanup, query execution,
                                      result formatting, conversation history)
  - src/src/agents/analyzer.py       (AnalyzerAgent: deadline parsing and status)
  - src/src/agents/extractor.py      (ExtractorAgent: retry/backoff behaviour)

Python strings are modelled as `List Char` (Python operates on code points) or
`String` where convenient; Neo4j state is modelled as explicit lists of typed
nodes plus a relationship list; dates are modelled as day ordinals (days since
1970-01-01), which is exact because the analyzer only ever adds whole days to
its reference date.
-/

set_option autoImplicit false

namespace Lexigraph

/-! ## Python / Cypher string primitives -/

/-- ASCII whitespace stripped by Python `str.strip()` (space, tab, newline,
carriage return, vertical tab, form feed); the sources only ever strip
ASCII model output. -/
def isPySpace (c : Char) : Bool :=
  c == ' ' || c == '\t' || c == '\n' || c == '\r' || c == Char.ofNat 11 || c == Char.ofNat 12

/-- Python `str.strip()`: drop whitespace from both ends. -/
def pyStrip (l : List Char) : List Char :=
  ((l.dropWhile isPySpace).reverse.dropWhile isPySpace).reverse

def pyStripS (s : String) : String := ⟨pyStrip s.data⟩

/-- Python/Cypher `lower()` on ASCII letters. -/
def toLowerCh (c : Char) : Char :=
  if 'A' ≤ c && c ≤ 'Z' then Char.ofNat (c.toNat + 32) else c

def lowerL (l : List Char) : List Char := l.map toLowerCh

def lowerS (s : String) : String := ⟨lowerL s.data⟩

/-- Substring containment (Python `needle in hay`, Cypher `hay CONTAINS needle`). -/
def listContains (hay needle : List Char) : Bool :=
  hay.tails.any (fun t => needle.isPrefixOf t)

def strContains (hay needle : String) : Bool := listContains hay.data needle.data

/-- If `pre` is a prefix of `l`, return the remaining suffix (used to model both
`str.startswith` and the scanning done by `str.split`). -/
def dropPrefixOpt : List Char → List Char → Option (List Char)
  | [], l => some l
  | _ :: _, [] => none
  | p :: ps, c :: cs => if p == c then dropPrefixOpt ps cs else none

/-- Python `s.startswith(pre)`. -/
def pyStartsWith (l pre : List Char) : Bool := (dropPrefixOpt pre l).isSome

/-- The suffix of `l` after the first occurrence of `sep`, if any
(the scanning step of Python `str.split(sep)`). -/
def afterFirstSep (sep : List Char) : List Char → Option (List Char)
  | [] => none
  | c :: rest =>
    match dropPrefixOpt sep (c :: rest) with
    | some suffix => some suffix
    | none => afterFirstSep sep rest

/-- The portion of `l` before the first occurrence of `sep` (everything if
`sep` does not occur). -/
def upToSep (sep : List Char) : List Char → List Char
  | [] => []
  | c :: rest =>
    if (dropPrefixOpt sep (c :: rest)).isSome then []
    else c :: upToSep sep rest

/-- Python `s.split(sep)[1]`: the text strictly between the first and second
occurrence of `sep` (or after the first occurrence, when `sep` occurs once).
The callers only index `[1]` after checking `s.startswith(sep)`, so the
`none` branch (Python `IndexError`) is unreachable there. -/
def splitGetSecond (sep l : List Char) : List Char :=
  match afterFirstSep sep l with
  | some suffix => upToSep sep suffix
  | none => []

/-- The backtick character (96), built by code point so that it only ever
appears inside string literals elsewhere in this file. -/
def btick : Char := Char.ofNat 96

/-- The three-character code fence delimiter. -/
def fence : List Char := [btick, btick, btick]

/-- The fence language tag checked by `QueryAgent.generate_cypher`. -/
def cypherTag : List Char := ['c', 'y', 'p', 'h', 'e', 'r']

/-! ## Entity records (src/src/models/entities.py) -/

namespace Entities

structure Person where
  name : String
  role : Option String := none
deriving DecidableEq

structure Topic where
  name : String
  description : Option String := none
deriving DecidableEq

structure Decision where
  description : String
  made_by : Option String := none
  related_topic : Option String := none
deriving DecidableEq

structure ActionItem where
  description : String
  owner : Option String := none
  deadline : Option String := none
  priority : Option String := none
deriving DecidableEq

structure Commitment where
  description : String
  made_by : String
  to_whom : Option String := none
deriving DecidableEq

structure MeetingExtraction where
  meeting_title : String
  meeting_date : Option String := none
  people : List Person := []
  topics : List Topic := []
  decisions : List Decision := []
  action_items : List ActionItem := []
  commitments : List Commitment := []
deriving DecidableEq

end Entities

/-! ## Graph state (the Neo4j database as seen through neo4j_client.py)

Each node kind keeps the properties the client writes; `id` models Neo4j's
internal element id (allocated from `nextId`).  Relationships are
`(fromId, relType, toId)` triples. -/

structure MeetingNode where
  id : Nat
  title : String
  date : Option String
deriving DecidableEq

structure PersonNode where
  id : Nat
  name : String
  role : Option String
deriving DecidableEq

structure TopicNode where
  id : Nat
  name : String
  description : Option String
deriving DecidableEq

structure DecisionNode where
  id : Nat
  description : String
deriving DecidableEq

structure ActionItemNode where
  id : Nat
  description : String
  deadline : Option String
  priority : Option String
  status : String
deriving DecidableEq

structure CommitmentNode where
  id : Nat
  description : String
deriving DecidableEq

structure Rel where
  fromId : Nat
  relType : String
  toId : Nat
deriving DecidableEq

structure GraphState where
  meetings : List MeetingNode
  persons : List PersonNode
  topics : List TopicNode
  decisions : List DecisionNode
  actionItems : List ActionItemNode
  commitments : List CommitmentNode
  rels : List Rel
  nextId : Nat
deriving DecidableEq

def emptyGraph : GraphState := ⟨[], [], [], [], [], [], [], 0⟩

/-! ### Node creation (neo4j_client.py lines 64-133)

`create_meeting` / `create_person` / `create_topic` run
`MERGE (x:L {key: $key}) SET x.attr = $attr`: match on the exact key,
create the node when absent, then overwrite the remaining attribute in
either case.  `create_decision` / `create_action_item` / `create_commitment`
run `CREATE`, which always inserts.  The Python helpers also return the
element id of the (first) affected node; no claim uses it, so the model
returns the updated state only. -/

def create_meeting (g : GraphState) (title : String) (date : Option String) : GraphState :=
  if g.meetings.any (fun m => m.title == title) then
    { g with meetings := g.meetings.map (fun m => if m.title == title then { m with date := date } else m) }
  else
    { g with meetings := g.meetings ++ [⟨g.nextId, title, date⟩], nextId := g.nextId + 1 }

def create_person (g : GraphState) (name : String) (role : Option String) : GraphState :=
  if g.persons.any (fun p => p.name == name) then
    { g with persons := g.persons.map (fun p => if p.name == name then { p with role := role } else p) }
  else
    { g with persons := g.persons ++ [⟨g.nextId, name, role⟩], nextId := g.nextId + 1 }

def create_topic (g : GraphState) (name : String) (description : Option String) : GraphState :=
  if g.topics.any (fun t => t.name == name) then
    { g with topics := g.topics.map (fun t => if t.name == name then { t with description := description } else t) }
  else
    { g with topics := g.topics ++ [⟨g.nextId, name, description⟩], nextId := g.nextId + 1 }

def create_decision (g : GraphState) (description : String) : GraphState :=
  { g with decisions := g.decisions ++ [⟨g.nextId, description⟩], nextId := g.nextId + 1 }

def create_action_item (g : GraphState) (description : String)
    (deadline priority : Option String) : GraphState :=
  { g with actionItems := g.actionItems ++ [⟨g.nextId, description, deadline, priority, "pending"⟩],
           nextId := g.nextId + 1 }

def create_commitment (g : GraphState) (description : String) : GraphState :=
  { g with commitments := g.commitments ++ [⟨g.nextId, description⟩], nextId := g.nextId + 1 }

/-! ### Relationship creation (neo4j_client.py lines 137-163) -/

/-- The `(id, a.prop)` pairs read by `MATCH (a:label) ... a.prop`; a property
that a node kind does not carry reads as Cypher `null` (`none`), and
`toLower(null) CONTAINS ...` never matches. -/
def labelProps (g : GraphState) (label prop : String) : List (Nat × Option String) :=
  if label == "Meeting" then
    g.meetings.map (fun m => (m.id, if prop == "title" then some m.title else none))
  else if label == "Person" then
    g.persons.map (fun p => (p.id, if prop == "name" then some p.name else none))
  else if label == "Topic" then
    g.topics.map (fun t => (t.id, if prop == "name" then some t.name else none))
  else if label == "Decision" then
    g.decisions.map (fun d => (d.id, if prop == "description" then some d.description else none))
  else if label == "ActionItem" then
    g.actionItems.map (fun a => (a.id, if prop == "description" then some a.description else none))
  else if label == "Commitment" then
    g.commitments.map (fun c => (c.id, if prop == "description" then some c.description else none))
  else []

/-- `toLower(stored) CONTAINS toLower(value) OR toLower(value) CONTAINS toLower(stored)`. -/
def fuzzyMatch (stored value : String) : Bool :=
  strContains (lowerS stored) (lowerS value) || strContains (lowerS value) (lowerS stored)

/-- The node ids matched by the `MATCH ... WHERE` clause of `create_relationship`. -/
def matchingIds (g : GraphState) (label prop value : String) : List Nat :=
  (labelProps g label prop).filterMap fun p =>
    match p.2 with
    | some stored => if fuzzyMatch stored value then some p.1 else none
    | none => none

/-- `MERGE (a)-[r:relType]->(b)` for one row: insert unless an identical
relationship already exists. -/
def mergeRel (rels : List Rel) (a : Nat) (t : String) (b : Nat) : List Rel :=
  if rels.any (fun r => r.fromId == a && r.relType == t && r.toId == b) then rels
  else rels ++ [⟨a, t, b⟩]

/-- `Neo4jClient.create_relationship`: match both endpoints by bidirectional
case-insensitive substring containment, then `MERGE` the relationship for
every matched pair; returns whether any row was produced. -/
def create_relationship (g : GraphState)
    (fromLabel fromProp fromValue relType toLabel toProp toValue : String) :
    GraphState × Bool :=
  let as := matchingIds g fromLabel fromProp fromValue
  let bs := matchingIds g toLabel toProp toValue
  let rels := as.foldl (fun acc a => bs.foldl (fun acc2 b => mergeRel acc2 a relType b) acc) g.rels
  ({ g with rels := rels }, !as.isEmpty && !bs.isEmpty)

def link_person_to_meeting (g : GraphState) (personName meetingTitle : String) : GraphState :=
  (create_relationship g "Person" "name" personName "ATTENDED" "Meeting" "title" meetingTitle).1

def link_meeting_to_topic (g : GraphState) (meetingTitle topicName : String) : GraphState :=
  (create_relationship g "Meeting" "title" meetingTitle "DISCUSSED" "Topic" "name" topicName).1

def link_person_to_decision (g : GraphState) (personName decisionDesc : String) : GraphState :=
  (create_relationship g "Person" "name" personName "MADE" "Decision" "description" decisionDesc).1

def link_person_to_action_item (g : GraphState) (personName actionDesc : String) : GraphState :=
  (create_relationship g "Person" "name" personName "OWNS" "ActionItem" "description" actionDesc).1

def link_person_to_commitment (g : GraphState) (personName commitmentDesc : String) : GraphState :=
  (create_relationship g "Person" "name" personName "COMMITTED" "Commitment" "description" commitmentDesc).1

def link_decision_to_topic (g : GraphState) (decisionDesc topicName : String) : GraphState :=
  (create_relationship g "Decision" "description" decisionDesc "ABOUT" "Topic" "name" topicName).1

def link_meeting_to_decision (g : GraphState) (meetingTitle decisionDesc : String) : GraphState :=
  (create_relationship g "Meeting" "title" meetingTitle "CONTAINS" "Decision" "description" decisionDesc).1

def link_meeting_to_action_item (g : GraphState) (meetingTitle actionDesc : String) : GraphState :=
  (create_relationship g "Meeting" "title" meetingTitle "CONTAINS" "ActionItem" "description" actionDesc).1

/-! ### GraphBuilderAgent.build_graph (graph_builder.py lines 37-121)

The Python guards `if decision.made_by:` etc. are truthiness tests: they skip
the link when the field is `None` or the empty string. -/

def truthyOpt : Option String → Bool
  | none => false
  | some s => !(s == "")

def buildPersonStep (meetingTitle : String) (g : GraphState) (p : Entities.Person) : GraphState :=
  link_person_to_meeting (create_person g p.name p.role) p.name meetingTitle

def buildTopicStep (meetingTitle : String) (g : GraphState) (t : Entities.Topic) : GraphState :=
  link_meeting_to_topic (create_topic g t.name t.description) meetingTitle t.name

def buildDecisionStep (meetingTitle : String) (g : GraphState) (d : Entities.Decision) : GraphState :=
  let g := create_decision g d.description
  let g := link_meeting_to_decision g meetingTitle d.description
  let g := if truthyOpt d.made_by then
      link_person_to_decision g (d.made_by.getD "") d.description else g
  if truthyOpt d.related_topic then
    link_decision_to_topic g d.description (d.related_topic.getD "") else g

def buildActionStep (meetingTitle : String) (g : GraphState) (a : Entities.ActionItem) : GraphState :=
  let g := create_action_item g a.description a.deadline a.priority
  let g := link_meeting_to_action_item g meetingTitle a.description
  if truthyOpt a.owner then
    link_person_to_action_item g (a.owner.getD "") a.description else g

def buildCommitmentStep (g : GraphState) (c : Entities.Commitment) : GraphState :=
  let g := create_commitment g c.description
  if !(c.made_by == "") then link_person_to_commitment g c.made_by c.description else g

/-- `GraphBuilderAgent.build_graph`.  The Python method also accumulates a
`stats` dictionary of counters which no claim reads; the model returns the
updated graph state. -/
def build_graph (g : GraphState) (e : Entities.MeetingExtraction) : GraphState :=
  let g := create_meeting g e.meeting_title e.meeting_date
  let g := e.people.foldl (buildPersonStep e.meeting_title) g
  let g := e.topics.foldl (buildTopicStep e.meeting_title) g
  let g := e.decisions.foldl (buildDecisionStep e.meeting_title) g
  let g := e.action_items.foldl (buildActionStep e.meeting_title) g
  e.commitments.foldl buildCommitmentStep g

/-- `Neo4jClient.get_node_counts` (fallback branch): one count per label. -/
structure NodeCounts where
  meetingCount : Nat
  personCount : Nat
  topicCount : Nat
  decisionCount : Nat
  actionItemCount : Nat
  commitmentCount : Nat
deriving DecidableEq

def get_node_counts (g : GraphState) : NodeCounts :=
  ⟨g.meetings.length, g.persons.length, g.topics.length,
   g.decisions.length, g.actionItems.length, g.commitments.length⟩

/-! ## QueryAgent (query_agent.py) -/

/-- The response-cleanup tail of `QueryAgent.generate_cypher` (lines 211-217):
strip, then if the text starts with a code fence take the `split` element
between the first two fences, drop a leading language tag, strip again. -/
def cleanCypher (resp : List Char) : List Char :=
  let c := pyStrip resp
  let c :=
    if pyStartsWith c fence then
      let mid := splitGetSecond fence c
      if pyStartsWith mid cypherTag then mid.drop 6 else mid
    else c
  pyStrip c

def cleanCypherS (s : String) : String := ⟨cleanCypher s.data⟩

/-- A Neo4j result row as produced by `record.data()`: an ordered key/value
mapping.  A value is `none` for a database `null` and `some s` for a value
rendering as `s` under Python string formatting. -/
abbrev Row := List (String × Option String)

def rowHasKey (r : Row) (k : String) : Bool := r.any (fun kv => kv.1 == k)

def rowGet (r : Row) (k : String) : Option String :=
  (r.find? (fun kv => kv.1 == k)).bind (fun kv => kv.2)

/-- `QueryAgent.execute_query` (lines 219-226).  The outcome of
`client.run_query(cypher)` — either result rows or a raised exception with
message `e` — is the explicit argument; the `except` arm converts any
exception into the single row `{"error": str(e)}` instead of re-raising. -/
def execute_query (outcome : Except String (List Row)) : List Row :=
  match outcome with
  | Except.ok rows => rows
  | Except.error e => [[("error", some e)]]

/-- One numbered line of `QueryAgent.format_results`: keys with `None`
values are skipped, the rest render as comma-separated `k: v` pairs. -/
def formatResultRow (i : Nat) (r : Row) : String :=
  toString i ++ ". " ++
    String.intercalate ", " (r.filterMap (fun kv => kv.2.map (fun v => kv.1 ++ ": " ++ v)))

def formatResultLines : Nat → List Row → List String
  | _, [] => []
  | i, r :: rest => formatResultRow i r :: formatResultLines (i + 1) rest

/-- `QueryAgent.format_results` (lines 228-239).  Python renders
`results[0]['error']` with an f-string, so a `null` value would print as
"None". -/
def format_results (results : List Row) : String :=
  match results with
  | [] => "No results found."
  | r0 :: _ =>
    if rowHasKey r0 "error" then
      "Query error: " ++ ((rowGet r0 "error").getD "None")
    else
      String.intercalate "\n" (formatResultLines 1 results)

/-- One conversation turn as stored by `QueryAgent.query` (the Python dict
keys are "question", "answer", "cypher"). -/
structure Turn where
  question : String
  answer : String
  cypher : String
deriving DecidableEq

/-- `QueryAgent.clear_history`. -/
def clear_history (_history : List Turn) : List Turn := []

/-- Python `s[:200]`. -/
def pyTake (n : Nat) (s : String) : String := ⟨s.data.take n⟩

/-- The two prompt lines one turn contributes to the formatted history
(`Q{i}: ...` and `A{i}: ...` with the answer truncated to 200 characters). -/
def formatHistoryTurn (i : Nat) (t : Turn) : List String :=
  ["Q" ++ toString i ++ ": " ++ t.question,
   "A" ++ toString i ++ ": " ++ pyTake 200 t.answer ++ "..."]

def formatHistoryLines : Nat → List Turn → List String
  | _, [] => []
  | i, t :: ts => formatHistoryTurn i t ++ formatHistoryLines (i + 1) ts

/-- `QueryAgent._format_chat_history` (lines 180-189): the sentinel for an
empty history, otherwise the last five turns (`history[-5:]`) numbered
from 1 and joined with newlines. -/
def format_chat_history (history : List Turn) : String :=
  if history.isEmpty then "No previous conversation."
  else
    String.intercalate "\n" (formatHistoryLines 1 (history.drop (history.length - 5)))

/-- The dictionary returned by `QueryAgent.query`. -/
structure QueryOutput where
  question : String
  cypher : String
  raw_results : List Row
  formatted_results : String
  answer : String
deriving DecidableEq

/-- `QueryAgent.query` (lines 241-280) as a state transformer on the
conversation history.  The two LLM invocations are oracles: `cypherResp` is
the raw text returned by the cypher chain and `answerResp` the raw text
returned by the answer chain; `execOutcome` is the outcome of
`client.run_query` on the generated query. -/
def queryStep (history : List Turn) (question : String)
    (cypherResp : String) (execOutcome : Except String (List Row)) (answerResp : String) :
    List Turn × QueryOutput :=
  let cypher := cleanCypherS cypherResp
  let results := execute_query execOutcome
  let formatted := format_results results
  let answerText := pyStripS answerResp
  (history ++ [⟨question, answerText, cypher⟩],
   ⟨question, cypher, results, formatted, answerText⟩)

/-! ## AnalyzerAgent (analyzer.py)

Dates are day ordinals: days since 1970-01-01.  `_parse_deadline` only ever
returns `reference + whole days`, so subtracting two `datetime`s there yields
an exact whole number of days and the day-ordinal model is exact. -/

/-- Python `datetime.weekday()`: Monday = 0 ... Sunday = 6.
1970-01-01 (ordinal 0) was a Thursday, hence the offset 3. -/
def weekday (d : Nat) : Nat := (d + 3) % 7

/-- The `days` dict of `_parse_deadline`, in insertion order. -/
def dayNames : List (String × Nat) :=
  [("monday", 0), ("tuesday", 1), ("wednesday", 2), ("thursday", 3),
   ("friday", 4), ("saturday", 5), ("sunday", 6)]

/-- `AnalyzerAgent._parse_deadline` (lines 124-154) over day ordinals. -/
def parse_deadline (deadlineStr : String) (referenceDate : Nat) : Option Nat :=
  let dl := pyStripS (lowerS deadlineStr)
  match dayNames.find? (fun p => strContains dl p.1) with
  | some p =>
    let currentDay := weekday referenceDate
    let daysAhead : Int := (p.2 : Int) - (currentDay : Int)
    let daysAhead : Int := if daysAhead ≤ 0 then daysAhead + 7 else daysAhead
    some (referenceDate + daysAhead.toNat)
  | none =>
    if strContains dl "today" || strContains dl "eod" then some referenceDate
    else if strContains dl "tomorrow" then some (referenceDate + 1)
    else if strContains dl "next week" then some (referenceDate + 7)
    else if strContains dl "end of week" then
      -- Python computes (4 - weekday) % 7 with a nonnegative result;
      -- weekday ≤ 6 so 4 + 7 - weekday is the same residue in Nat.
      some (referenceDate + (4 + 7 - weekday referenceDate) % 7)
    else none

/-- One row of the action-item query in `get_deadline_status`; `record.data()`
always carries all six aliases, with `none` for database nulls (so the
Python `item.get("status", "pending")` default never fires). -/
structure ActionRow where
  task : Option String
  deadline : Option String
  owner : Option String
  status : Option String
  priority : Option String
  meeting : Option String
deriving DecidableEq

inductive Bucket where
  | overdue
  | due_soon
  | upcoming
  | no_deadline
deriving DecidableEq

structure Categorized where
  overdue : List ActionRow
  due_soon : List ActionRow
  upcoming : List ActionRow
  no_deadline : List ActionRow
deriving DecidableEq

/-- The branch structure of the loop body of `get_deadline_status`
(lines 95-120): `if not deadline_str` catches both a null and an empty
deadline; a parsed deadline is bucketed by `(deadline_date - today).days`;
an unparseable non-empty deadline falls into "upcoming". -/
def classifyDeadline (today : Nat) (deadline : Option String) : Bucket :=
  match deadline with
  | none => Bucket.no_deadline
  | some s =>
    if s == "" then Bucket.no_deadline
    else
      match parse_deadline s today with
      | some d =>
        let daysUntil : Int := (d : Int) - (today : Int)
        if daysUntil < 0 then Bucket.overdue
        else if daysUntil ≤ 2 then Bucket.due_soon
        else Bucket.upcoming
      | none => Bucket.upcoming

def addToBucket (c : Categorized) (b : Bucket) (r : ActionRow) : Categorized :=
  match b with
  | Bucket.overdue => { c with overdue := c.overdue ++ [r] }
  | Bucket.due_soon => { c with due_soon := c.due_soon ++ [r] }
  | Bucket.upcoming => { c with upcoming := c.upcoming ++ [r] }
  | Bucket.no_deadline => { c with no_deadline := c.no_deadline ++ [r] }

/-- `AnalyzerAgent.get_deadline_status` (lines 61-122) on the rows returned
by its query (the `item_data` dict it appends carries the same six fields
as the row). -/
def get_deadline_status (today : Nat) (rows : List ActionRow) : Categorized :=
  rows.foldl (fun c r => addToBucket c (classifyDeadline today r.deadline) r) ⟨[], [], [], []⟩

/-- 2024-01-15 as a day ordinal: 19723 days reach 2024-01-01
(54 years of which 13 are leap), plus 14.  `weekday 19737 = 0` (a Monday). -/
def jan15_2024 : Nat := 19737

/-! ## ExtractorAgent (extractor.py)

`extract` is decorated with
`retry(stop=stop_after_attempt(3), wait=wait_exponential(multiplier=1, min=2, max=10))`
from tenacity.  With these (default) settings tenacity re-invokes the body
up to 3 times, sleeps `max(min, min(multiplier * 2^(n-1), max))` seconds
after failed attempt `n`, and — because `reraise` is left at its default
`False` — raises a `tenacity.RetryError` wrapping the last attempt's
exception once the stop condition is reached. -/

/-- A raised Python exception as seen by a caller of `extract`: either the
LLM provider's own exception or tenacity's `RetryError` wrapper. -/
inductive PyError where
  | providerError (msg : String)
  | retryError (last : PyError)
deriving DecidableEq

/-- A provider behaviour: the outcome of the LLM call on each attempt
(attempts are numbered from 1). -/
def Provider : Type := Nat → Except PyError Entities.MeetingExtraction

/-- The sleep (in seconds) tenacity inserts after failed attempt `n` under
`wait_exponential(multiplier=1, min=2, max=10)`. -/
def waitSeconds (n : Nat) : Nat := max 2 (min (2 ^ (n - 1)) 10)

/-- The retry loop: `retriesLeft` further attempts are allowed after the
current one; on exhaustion the last exception is wrapped in `RetryError`. -/
def retryCall (provider : Provider) : Nat → Nat → Except PyError Entities.MeetingExtraction
  | retriesLeft, attempt =>
    match provider attempt, retriesLeft with
    | Except.ok a, _ => Except.ok a
    | Except.error e, 0 => Except.error (PyError.retryError e)
    | Except.error _, r + 1 => retryCall provider r (attempt + 1)

/-- `ExtractorAgent.extract` under the tenacity decorator: at most 3 attempts. -/
def extractModel (provider : Provider) : Except PyError Entities.MeetingExtraction :=
  retryCall provider 2 1

/-- The number of the attempt on which `extract` stops (successfully or not). -/
def lastAttempt (provider : Provider) : Nat → Nat → Nat
  | retriesLeft, attempt =>
    match provider attempt, retriesLeft with
    | Except.ok _, _ => attempt
    | Except.error _, 0 => attempt
    | Except.error _, r + 1 => lastAttempt provider r (attempt + 1)

/-- `ExtractorAgent.extract_safe` (lines 77-83): catch everything `extract`
raises and return `None`. -/
def extract_safe (provider : Provider) : Option Entities.MeetingExtraction :=
  match extractModel provider with
  | Except.ok e => some e
  | Except.error _ => none

/-! ## Derived notions used by the claims -/

/-- The deadline-categorization rule as the specification words it: empty or
missing deadline to "no_deadline"; a deadline parsing strictly before the
reference date to "overdue"; parsing to at most 2 days ahead to "due_soon";
parsing further ahead, or non-empty but unparseable, to "upcoming".
Stated over day ordinals for comparison with `classifyDeadline`. -/
def claimedBucket (today : Nat) (deadline : Option String) : Bucket :=
  match deadline with
  | none => Bucket.no_deadline
  | some s =>
    if s == "" then Bucket.no_deadline
    else
      match parse_deadline s today with
      | some d =>
        if d < today then Bucket.overdue
        else if d ≤ today + 2 then Bucket.due_soon
        else Bucket.upcoming
      | none => Bucket.upcoming

def countMeetingTitle (g : GraphState) (title : String) : Nat :=
  (g.meetings.filter (fun m => m.title == title)).length

def countPersonName (g : GraphState) (name : String) : Nat :=
  (g.persons.filter (fun p => p.name == name)).length

def countTopicName (g : GraphState) (name : String) : Nat :=
  (g.topics.filter (fun t => t.name == name)).length

def meetingTitles (g : GraphState) : List String := g.meetings.map MeetingNode.title

def personNames (g : GraphState) : List String := g.persons.map PersonNode.name

def topicNames (g : GraphState) : List String := g.topics.map TopicNode.name

/-! ### Concrete fixtures for witnesses and counterexamples -/

/-- An extraction naming the same person twice. -/
def dupExtraction : Entities.MeetingExtraction :=
  { meeting_title := "Sync", people := [⟨"Mike", none⟩, ⟨"Mike", none⟩] }

/-- An extraction with pairwise-distinct person and topic names. -/
def sampleExtraction : Entities.MeetingExtraction :=
  { meeting_title := "Sync"
    meeting_date := some "2024-01-15"
    people := [⟨"Sarah Chen", some "PM"⟩, ⟨"Mike Johnson", none⟩]
    topics := [⟨"Dashboard", none⟩]
    decisions := [⟨"Dark mode default", some "Sarah Chen", some "Dashboard"⟩]
    action_items := [⟨"Finish docs", some "Mike Johnson", some "Friday", none⟩]
    commitments := [⟨"Deliver designs", "Sarah Chen", none⟩] }

/-- Two people whose names both fuzzily match the value "Lee", plus a meeting. -/
def demoGraph : GraphState :=
  { emptyGraph with
      persons := [⟨0, "Lee Park", none⟩, ⟨1, "Ashlee Kim", none⟩]
      meetings := [⟨2, "Sync", none⟩]
      nextId := 3 }

/-- A six-turn conversation history. -/
def sixTurns : List Turn :=
  [⟨"q1", "a1", "c1"⟩, ⟨"q2", "a2", "c2"⟩, ⟨"q3", "a3", "c3"⟩,
   ⟨"q4", "a4", "c4"⟩, ⟨"q5", "a5", "c5"⟩, ⟨"q6", "a6", "c6"⟩]

/-- A provider whose LLM call fails on every attempt. -/
def failingProvider : Provider := fun _ => Except.error (PyError.providerError "boom")

def trivialExtraction : Entities.MeetingExtraction := { meeting_title := "T" }

/-- A provider whose LLM call succeeds immediately. -/
def okProvider : Provider := fun _ => Except.ok trivialExtraction

/-- Concrete action-item rows exercising every deadline bucket at the
reference Monday 2024-01-15. -/
def sampleRows : List ActionRow :=
  [⟨some "t1", some "Friday", none, none, none, none⟩,
   ⟨some "t2", some "tomorrow", none, none, none, none⟩,
   ⟨some "t3", some "whenever", none, none, none, none⟩,
   ⟨some "t4", none, none, none, none, none⟩,
   ⟨some "t5", some "", none, none, none, none⟩]

/-- A fenced, tagged model response around a newline-padded query. -/
def tagResp : List Char :=
  fence ++ (cypherTag ++ ('\n' :: "MATCH (n) RETURN n\n".data)) ++ fence

/-! ## Theorems -/

/-! ### String lemmas for the cypher fence cleanup (C8) -/

theorem dropPrefixOpt_append (p l : List Char) : dropPrefixOpt p (p ++ l) = some l := by
  induction p with
  | nil => rfl
  | cons c cs ih => simp [dropPrefixOpt, ih]

theorem dropPrefixOpt_fence_ne (c : Char) (t : List Char)
    (hc : c ≠ btick) : dropPrefixOpt fence (c :: t) = none := by
  simp only [fence, dropPrefixOpt]
  rw [if_neg]
  intro h
  exact hc (eq_of_beq h).symm

theorem pyStartsWith_append (p l : List Char) : pyStartsWith (p ++ l) p = true := by
  simp [pyStartsWith, dropPrefixOpt_append]

theorem afterFirstSep_fence_append (rest : List Char) :
    afterFirstSep fence (fence ++ rest) = some rest := by
  have h : fence ++ rest = btick :: ([btick, btick] ++ rest) := by simp [fence]
  rw [h, afterFirstSep]
  have hd : dropPrefixOpt fence (btick :: ([btick, btick] ++ rest)) = some rest := by
    rw [← h]; exact dropPrefixOpt_append fence rest
  rw [hd]

theorem upToSep_no_btick (mid : List Char) (hmid : ∀ c ∈ mid, c ≠ btick) :
    upToSep fence (mid ++ fence) = mid := by
  induction mid with
  | nil => decide
  | cons c t ih =>
    have hc : c ≠ btick := hmid c (by simp)
    have ht : ∀ x ∈ t, x ≠ btick := fun x hx => hmid x (by simp [hx])
    show upToSep fence (c :: (t ++ fence)) = c :: t
    rw [upToSep, dropPrefixOpt_fence_ne c _ hc]
    simp [ih ht]

theorem splitGetSecond_fenced (mid : List Char) (hmid : ∀ c ∈ mid, c ≠ btick) :
    splitGetSecond fence (fence ++ mid ++ fence) = mid := by
  rw [splitGetSecond]
  rw [List.append_assoc, afterFirstSep_fence_append]
  exact upToSep_no_btick mid hmid

theorem pyStrip_no_space_ends (l : List Char) (c1 c2 : Char) (t1 t2 : List Char)
    (h1 : l = c1 :: t1) (h2 : l.reverse = c2 :: t2)
    (hc1 : isPySpace c1 = false) (hc2 : isPySpace c2 = false) :
    pyStrip l = l := by
  have hdw : List.dropWhile isPySpace l = l := by
    rw [h1, List.dropWhile_cons, hc1]; simp
  have hdwr : List.dropWhile isPySpace l.reverse = l.reverse := by
    rw [h2, List.dropWhile_cons, hc2]; simp
  unfold pyStrip
  rw [hdw, hdwr, List.reverse_reverse]

theorem pyStrip_fence_wrapped (x : List Char) :
    pyStrip (fence ++ x ++ fence) = fence ++ x ++ fence := by
  have h1 : fence ++ x ++ fence = btick :: ([btick, btick] ++ x ++ fence) := by
    simp [fence]
  have h2 : (fence ++ x ++ fence).reverse
      = btick :: ([btick, btick] ++ x.reverse ++ [btick, btick, btick]) := by
    simp [fence]
  exact pyStrip_no_space_ends _ _ _ _ _ h1 h2 (by decide) (by decide)

theorem pyStrip_idem (l : List Char) : pyStrip (pyStrip l) = pyStrip l := by
  have heq : ∀ m : List Char,
      pyStrip m = List.rdropWhile isPySpace (List.dropWhile isPySpace m) := fun _ => rfl
  rw [heq, heq]
  have h1 : List.dropWhile isPySpace
      (List.rdropWhile isPySpace (List.dropWhile isPySpace l))
      = List.rdropWhile isPySpace (List.dropWhile isPySpace l) := by
    rw [List.dropWhile_eq_self_iff]
    intro hl
    have hpre := List.rdropWhile_prefix isPySpace (List.dropWhile isPySpace l)
    have hAlen : 0 < (List.dropWhile isPySpace l).length :=
      lt_of_lt_of_le hl hpre.length_le
    have hg : (List.rdropWhile isPySpace (List.dropWhile isPySpace l)).get ⟨0, hl⟩
        = (List.dropWhile isPySpace l).get ⟨0, hAlen⟩ := by
      simp only [List.get_eq_getElem]
      exact List.IsPrefix.getElem hpre _
    rw [hg]
    exact List.dropWhile_get_zero_not isPySpace l hAlen
  rw [h1, List.rdropWhile_idempotent]

theorem cleanCypher_tagged (s : List Char) (hs : ∀ c ∈ s, c ≠ btick) :
    cleanCypher (fence ++ (cypherTag ++ s) ++ fence) = pyStrip s := by
  have hmid : ∀ c ∈ cypherTag ++ s, c ≠ btick := by
    intro c hc
    rcases List.mem_append.mp hc with h | h
    · fin_cases h <;> decide
    · exact hs c h
  have h1 : pyStrip (fence ++ (cypherTag ++ s) ++ fence) = fence ++ (cypherTag ++ s) ++ fence :=
    pyStrip_fence_wrapped _
  have h2 : pyStartsWith (fence ++ (cypherTag ++ s) ++ fence) fence = true := by
    rw [List.append_assoc]
    exact pyStartsWith_append fence _
  have h3 : splitGetSecond fence (fence ++ (cypherTag ++ s) ++ fence) = cypherTag ++ s :=
    splitGetSecond_fenced _ hmid
  have h4 : pyStartsWith (cypherTag ++ s) cypherTag = true := pyStartsWith_append _ _
  have h5 : List.drop 6 (cypherTag ++ s) = s := by
    rw [show (6 : Nat) = cypherTag.length from rfl, List.drop_left]
  simp only [cleanCypher, h1, h2, if_true, h3, h4, h5]

theorem cleanCypher_untagged (s : List Char) (hs : ∀ c ∈ s, c ≠ btick)
    (hns : pyStartsWith s cypherTag = false) :
    cleanCypher (fence ++ s ++ fence) = pyStrip s := by
  have h1 : pyStrip (fence ++ s ++ fence) = fence ++ s ++ fence :=
    pyStrip_fence_wrapped _
  have h2 : pyStartsWith (fence ++ s ++ fence) fence = true := by
    rw [List.append_assoc]
    exact pyStartsWith_append fence _
  have h3 : splitGetSecond fence (fence ++ s ++ fence) = s :=
    splitGetSecond_fenced _ hs
  simp only [cleanCypher, h1, h2, if_true, h3, hns, Bool.false_eq_true, if_false]

theorem cleanCypher_nofence (r : List Char)
    (hnf : pyStartsWith (pyStrip r) fence = false) :
    cleanCypher r = pyStrip r := by
  simp only [cleanCypher, hnf, Bool.false_eq_true, if_false]
  exact pyStrip_idem r

/-- Claim C8: a model response wrapped in a triple-backtick fence —
optionally tagged "cypher" — is returned by `generate_cypher` as the
enclosed query text with fence and tag removed and whitespace stripped; a
response whose stripped form carries no leading fence is merely stripped. -/
theorem c8_generate_cypher_fences :
    (∀ s : List Char, (∀ c ∈ s, c ≠ btick) →
        cleanCypher (fence ++ (cypherTag ++ s) ++ fence) = pyStrip s)
    ∧ (∀ s : List Char, (∀ c ∈ s, c ≠ btick) → pyStartsWith s cypherTag = false →
        cleanCypher (fence ++ s ++ fence) = pyStrip s)
    ∧ (∀ r : List Char, pyStartsWith (pyStrip r) fence = false →
        cleanCypher r = pyStrip r) :=
  ⟨cleanCypher_tagged, cleanCypher_untagged, cleanCypher_nofence⟩

/-- Witness for C8 on a concrete tagged fenced response. -/
theorem c8_generate_cypher_fences_witness :
    (∀ c ∈ ('\n' :: "MATCH (n) RETURN n\n".data), c ≠ btick)
    ∧ cleanCypher tagResp = "MATCH (n) RETURN n".data := by
  constructor
  · decide
  · rw [show tagResp
          = fence ++ (cypherTag ++ ('\n' :: "MATCH (n) RETURN n\n".data)) ++ fence from rfl,
        c8_generate_cypher_fences.1 _ (by decide)]
    decide

/-- Claim C1: `QueryAgent.execute_query` never raises — a failing
`run_query` is converted into the single result row `{"error": str(e)}`,
a successful one is passed through — and `format_results` turns that error
row into a "Query error: ..." string, so the synthesis step still runs. -/
theorem c1_execute_query_catches_errors :
    (∀ e : String, execute_query (Except.error e) = [[("error", some e)]])
    ∧ (∀ rows : List Row, execute_query (Except.ok rows) = rows)
    ∧ (∀ e : String, format_results [[("error", some e)]] = "Query error: " ++ e) :=
  ⟨fun _ => rfl, fun _ => rfl, fun _ => rfl⟩

/-- Claim C6 (helper): an empty conversation history formats to the
designated "no history" sentinel, and the formatted output of a history of
6 or more turns depends only on the most recent 5 turns. -/
theorem c6_format_chat_history :
    format_chat_history [] = "No previous conversation."
    ∧ ∀ h : List Turn, 6 ≤ h.length →
        format_chat_history h = format_chat_history (h.drop (h.length - 5)) := by
  refine ⟨rfl, fun h hh => ?_⟩
  have hne : h.isEmpty = false := by
    cases h with
    | nil => simp at hh
    | cons a t => rfl
  have hlen : (h.drop (h.length - 5)).length = 5 := by
    rw [List.length_drop]; omega
  have hne2 : (h.drop (h.length - 5)).isEmpty = false := by
    rw [List.isEmpty_eq_false_iff_exists_mem]
    rcases List.exists_mem_of_length_pos (by omega : 0 < (h.drop (h.length - 5)).length) with ⟨x, hx⟩
    exact ⟨x, hx⟩
  rw [format_chat_history, format_chat_history, hne, hne2]
  simp only [hlen, Nat.sub_self, List.drop_zero]

/-- Witness for C6 at a concrete six-turn history. -/
theorem c6_format_chat_history_witness :
    6 ≤ sixTurns.length
    ∧ format_chat_history sixTurns = format_chat_history (sixTurns.drop (sixTurns.length - 5)) :=
  ⟨by decide, c6_format_chat_history.2 sixTurns (by decide)⟩

/-- Claim C7: `_parse_deadline` at the reference Monday 2024-01-15
(day ordinal 19737): "Friday" parses to 4 days ahead, a Friday; "tomorrow"
to the next day; "today" and "EOD" to the reference itself (which is a
Monday). -/
theorem c7_parse_deadline_reference_cases :
    parse_deadline "Friday" jan15_2024 = some (jan15_2024 + 4)
    ∧ weekday (jan15_2024 + 4) = 4
    ∧ weekday jan15_2024 = 0
    ∧ parse_deadline "tomorrow" jan15_2024 = some (jan15_2024 + 1)
    ∧ parse_deadline "today" jan15_2024 = some jan15_2024
    ∧ parse_deadline "EOD" jan15_2024 = some jan15_2024 :=
  ⟨by decide, by decide, by decide, by decide, by decide, by decide⟩

/-- Claim C9: `QueryAgent.query` appends exactly one turn (the question,
the stripped synthesized answer, the generated query) to the conversation
history, leaving all earlier turns in place, never yields an empty history,
and only `clear_history` empties it. -/
theorem c9_history_append_only :
    ∀ (h : List Turn) (q cr ar : String) (eo : Except String (List Row)),
      (queryStep h q cr eo ar).1 = h ++ [⟨q, pyStripS ar, cleanCypherS cr⟩]
      ∧ (queryStep h q cr eo ar).1.length = h.length + 1
      ∧ (queryStep h q cr eo ar).1.take h.length = h
      ∧ (queryStep h q cr eo ar).1 ≠ []
      ∧ clear_history h = [] := by
  intro h q cr ar eo
  exact ⟨rfl, by simp [queryStep], by simp [queryStep, List.take_left],
         by simp [queryStep], rfl⟩

/-- Helper for C10: the loop body of `get_deadline_status` implements the
claimed bucket rule (the `(deadline_date - today).days` comparisons over
`Int` agree with the date comparisons of the rule). -/
theorem classify_eq_claimed (today : Nat) (dl : Option String) :
    classifyDeadline today dl = claimedBucket today dl := by
  unfold classifyDeadline claimedBucket
  cases dl with
  | none => rfl
  | some s =>
    by_cases hs : (s == "") = true
    · simp [hs]
    · simp only [Bool.not_eq_true] at hs
      simp only [hs]
      cases hp : parse_deadline s today with
      | none => rfl
      | some d =>
        simp only []
        by_cases h1 : (d : Int) - (today : Int) < 0
        · rw [if_pos h1, if_pos (by omega : d < today)]
        · rw [if_neg h1, if_neg (by omega : ¬ d < today)]
          by_cases h2 : (d : Int) - (today : Int) ≤ 2
          · rw [if_pos h2, if_pos (by omega : d ≤ today + 2)]
          · rw [if_neg h2, if_neg (by omega : ¬ d ≤ today + 2)]

/-- Helper for C10: unrolling the categorization fold into filters. -/
theorem gds_fold (today : Nat) (rows : List ActionRow) (c : Categorized) :
    (rows.foldl (fun c r => addToBucket c (classifyDeadline today r.deadline) r) c)
      = ⟨c.overdue ++ rows.filter (fun r => classifyDeadline today r.deadline == Bucket.overdue),
         c.due_soon ++ rows.filter (fun r => classifyDeadline today r.deadline == Bucket.due_soon),
         c.upcoming ++ rows.filter (fun r => classifyDeadline today r.deadline == Bucket.upcoming),
         c.no_deadline ++ rows.filter (fun r => classifyDeadline today r.deadline == Bucket.no_deadline)⟩ := by
  induction rows generalizing c with
  | nil => simp
  | cons r rest ih =>
    rw [List.foldl_cons, ih]
    cases hb : classifyDeadline today r.deadline <;>
      simp [addToBucket, hb, List.filter_cons]

/-- Helper for C10: the four bucket predicates partition the rows. -/
theorem bucket_partition (today : Nat) (rows : List ActionRow) :
    (rows.filter (fun r => classifyDeadline today r.deadline == Bucket.overdue)).length
    + (rows.filter (fun r => classifyDeadline today r.deadline == Bucket.due_soon)).length
    + (rows.filter (fun r => classifyDeadline today r.deadline == Bucket.upcoming)).length
    + (rows.filter (fun r => classifyDeadline today r.deadline == Bucket.no_deadline)).length
    = rows.length := by
  induction rows with
  | nil => rfl
  | cons r rest ih =>
    cases hb : classifyDeadline today r.deadline <;>
      simp [List.filter_cons, hb] <;> omega

/-- Claim C10: `get_deadline_status` places every queried action item into
exactly one of the four categories, and its branch logic coincides with the
claimed rule: no/empty deadline to "no_deadline", a deadline parsing
strictly before the reference to "overdue", at most 2 days ahead to
"due_soon", further ahead to "upcoming", and a non-empty unparseable
deadline also to "upcoming" (see `claimedBucket`). -/
theorem c10_deadline_status_partition :
    ∀ (today : Nat) (rows : List ActionRow),
      (∀ dl, classifyDeadline today dl = claimedBucket today dl)
      ∧ get_deadline_status today rows
          = ⟨rows.filter (fun r => claimedBucket today r.deadline == Bucket.overdue),
             rows.filter (fun r => claimedBucket today r.deadline == Bucket.due_soon),
             rows.filter (fun r => claimedBucket today r.deadline == Bucket.upcoming),
             rows.filter (fun r => claimedBucket today r.deadline == Bucket.no_deadline)⟩
      ∧ (get_deadline_status today rows).overdue.length
        + (get_deadline_status today rows).due_soon.length
        + (get_deadline_status today rows).upcoming.length
        + (get_deadline_status today rows).no_deadline.length = rows.length := by
  intro today rows
  have hfun : ∀ b : Bucket,
      (fun r : ActionRow => classifyDeadline today r.deadline == b)
        = (fun r : ActionRow => claimedBucket today r.deadline == b) := by
    intro b; funext r; rw [classify_eq_claimed]
  have hmain : get_deadline_status today rows
      = ⟨rows.filter (fun r => claimedBucket today r.deadline == Bucket.overdue),
         rows.filter (fun r => claimedBucket today r.deadline == Bucket.due_soon),
         rows.filter (fun r => claimedBucket today r.deadline == Bucket.upcoming),
         rows.filter (fun r => claimedBucket today r.deadline == Bucket.no_deadline)⟩ := by
    unfold get_deadline_status
    rw [gds_fold]
    simp only [hfun]
    rfl
  refine ⟨fun dl => classify_eq_claimed today dl, hmain, ?_⟩
  rw [hmain]
  simp only [← hfun]
  exact bucket_partition today rows


/-- Helper for C2: `create_meeting` twice with the same title leaves one
node with that title, carrying the last date. -/
theorem c2_meeting_upsert (g : GraphState) (key : String) (v1 v2 : Option String)
    (h0 : countMeetingTitle g key = 0) :
    ((create_meeting (create_meeting g key v1) key v2).meetings.filter
        (fun x => x.title == key)).map (fun x => (x.title, x.date)) = [(key, v2)] := by
  have hfil : g.meetings.filter (fun x => x.title == key) = [] := by
    have := h0
    unfold countMeetingTitle at this
    exact List.length_eq_zero.mp this
  have hany : g.meetings.any (fun x => x.title == key) = false := by
    rw [List.any_eq_false]
    intro x hm hb
    have : x ∈ g.meetings.filter (fun x => x.title == key) := List.mem_filter.mpr ⟨hm, hb⟩
    rw [hfil] at this
    exact absurd this (List.not_mem_nil x)
  have hg1 : create_meeting g key v1
      = { g with meetings := g.meetings ++ [⟨g.nextId, key, v1⟩], nextId := g.nextId + 1 } := by
    unfold create_meeting
    rw [hany]
    simp
  have hany1 : (g.meetings ++ [(⟨g.nextId, key, v1⟩ : MeetingNode)]).any
      (fun x => x.title == key) = true := by
    rw [List.any_append]
    simp
  have hg2 : create_meeting (create_meeting g key v1) key v2
      = { g with
            meetings := (g.meetings ++ [(⟨g.nextId, key, v1⟩ : MeetingNode)]).map
              (fun x : MeetingNode =>
                if x.title == key then { x with date := v2 } else x),
            nextId := g.nextId + 1 } := by
    rw [hg1]
    unfold create_meeting
    simp only [hany1, if_true]
  rw [hg2]
  simp only []
  rw [List.filter_map]
  have hcomp : ((fun x : MeetingNode => x.title == key)
      ∘ (fun x : MeetingNode => if x.title == key then { x with date := v2 } else x))
      = (fun x : MeetingNode => x.title == key) := by
    funext x
    by_cases h : (x.title == key) = true
    · simp [Function.comp, h]
    · simp only [Bool.not_eq_true] at h
      simp [Function.comp, h]
  rw [hcomp, List.filter_append, hfil]
  simp


/-- Helper for C2: the same upsert property for `create_person`. -/
theorem c2_person_upsert (g : GraphState) (key : String) (v1 v2 : Option String)
    (h0 : countPersonName g key = 0) :
    ((create_person (create_person g key v1) key v2).persons.filter
        (fun x => x.name == key)).map (fun x => (x.name, x.role)) = [(key, v2)] := by
  have hfil : g.persons.filter (fun x => x.name == key) = [] := by
    have := h0
    unfold countPersonName at this
    exact List.length_eq_zero.mp this
  have hany : g.persons.any (fun x => x.name == key) = false := by
    rw [List.any_eq_false]
    intro x hm hb
    have : x ∈ g.persons.filter (fun x => x.name == key) := List.mem_filter.mpr ⟨hm, hb⟩
    rw [hfil] at this
    exact absurd this (List.not_mem_nil x)
  have hg1 : create_person g key v1
      = { g with persons := g.persons ++ [⟨g.nextId, key, v1⟩], nextId := g.nextId + 1 } := by
    unfold create_person
    rw [hany]
    simp
  have hany1 : (g.persons ++ [(⟨g.nextId, key, v1⟩ : PersonNode)]).any
      (fun x => x.name == key) = true := by
    rw [List.any_append]
    simp
  have hg2 : create_person (create_person g key v1) key v2
      = { g with
            persons := (g.persons ++ [(⟨g.nextId, key, v1⟩ : PersonNode)]).map
              (fun x : PersonNode =>
                if x.name == key then { x with role := v2 } else x),
            nextId := g.nextId + 1 } := by
    rw [hg1]
    unfold create_person
    simp only [hany1, if_true]
  rw [hg2]
  simp only []
  rw [List.filter_map]
  have hcomp : ((fun x : PersonNode => x.name == key)
      ∘ (fun x : PersonNode => if x.name == key then { x with role := v2 } else x))
      = (fun x : PersonNode => x.name == key) := by
    funext x
    by_cases h : (x.name == key) = true
    · simp [Function.comp, h]
    · simp only [Bool.not_eq_true] at h
      simp [Function.comp, h]
  rw [hcomp, List.filter_append, hfil]
  simp


/-- Helper for C2: the same upsert property for `create_topic`. -/
theorem c2_topic_upsert (g : GraphState) (key : String) (v1 v2 : Option String)
    (h0 : countTopicName g key = 0) :
    ((create_topic (create_topic g key v1) key v2).topics.filter
        (fun x => x.name == key)).map (fun x => (x.name, x.description)) = [(key, v2)] := by
  have hfil : g.topics.filter (fun x => x.name == key) = [] := by
    have := h0
    unfold countTopicName at this
    exact List.length_eq_zero.mp this
  have hany : g.topics.any (fun x => x.name == key) = false := by
    rw [List.any_eq_false]
    intro x hm hb
    have : x ∈ g.topics.filter (fun x => x.name == key) := List.mem_filter.mpr ⟨hm, hb⟩
    rw [hfil] at this
    exact absurd this (List.not_mem_nil x)
  have hg1 : create_topic g key v1
      = { g with topics := g.topics ++ [⟨g.nextId, key, v1⟩], nextId := g.nextId + 1 } := by
    unfold create_topic
    rw [hany]
    simp
  have hany1 : (g.topics ++ [(⟨g.nextId, key, v1⟩ : TopicNode)]).any
      (fun x => x.name == key) = true := by
    rw [List.any_append]
    simp
  have hg2 : create_topic (create_topic g key v1) key v2
      = { g with
            topics := (g.topics ++ [(⟨g.nextId, key, v1⟩ : TopicNode)]).map
              (fun x : TopicNode =>
                if x.name == key then { x with description := v2 } else x),
            nextId := g.nextId + 1 } := by
    rw [hg1]
    unfold create_topic
    simp only [hany1, if_true]
  rw [hg2]
  simp only []
  rw [List.filter_map]
  have hcomp : ((fun x : TopicNode => x.name == key)
      ∘ (fun x : TopicNode => if x.name == key then { x with description := v2 } else x))
      = (fun x : TopicNode => x.name == key) := by
    funext x
    by_cases h : (x.name == key) = true
    · simp [Function.comp, h]
    · simp only [Bool.not_eq_true] at h
      simp [Function.comp, h]
  rw [hcomp, List.filter_append, hfil]
  simp

/-- Claim C2: `create_meeting`, `create_person` and `create_topic` are
upserts keyed on the case-sensitive exact key (the match predicate is exact
string equality): a second call with the same key leaves exactly one node
with that key and overwrites the remaining attribute with the latest value. -/
theorem c2_upsert_exact_key :
    ∀ (g : GraphState) (key : String) (v1 v2 : Option String),
      (countMeetingTitle g key = 0 →
        ((create_meeting (create_meeting g key v1) key v2).meetings.filter
            (fun x => x.title == key)).map (fun x => (x.title, x.date)) = [(key, v2)])
      ∧ (countPersonName g key = 0 →
        ((create_person (create_person g key v1) key v2).persons.filter
            (fun x => x.name == key)).map (fun x => (x.name, x.role)) = [(key, v2)])
      ∧ (countTopicName g key = 0 →
        ((create_topic (create_topic g key v1) key v2).topics.filter
            (fun x => x.name == key)).map (fun x => (x.name, x.description)) = [(key, v2)]) :=
  fun g key v1 v2 =>
    ⟨c2_meeting_upsert g key v1 v2, c2_person_upsert g key v1 v2, c2_topic_upsert g key v1 v2⟩

/-- Witness for C2 at concrete keys from the empty graph. -/
theorem c2_upsert_exact_key_witness :
    countMeetingTitle emptyGraph "Standup" = 0
    ∧ ((create_meeting (create_meeting emptyGraph "Standup" none) "Standup"
          (some "2024-01-02")).meetings.filter (fun x => x.title == "Standup")).map
        (fun x => (x.title, x.date)) = [("Standup", some "2024-01-02")]
    ∧ countPersonName emptyGraph "Ann" = 0
    ∧ ((create_person (create_person emptyGraph "Ann" (some "PM")) "Ann"
          (some "Eng")).persons.filter (fun x => x.name == "Ann")).map
        (fun x => (x.name, x.role)) = [("Ann", some "Eng")]
    ∧ countTopicName emptyGraph "Roadmap" = 0
    ∧ ((create_topic (create_topic emptyGraph "Roadmap" none) "Roadmap"
          none).topics.filter (fun x => x.name == "Roadmap")).map
        (fun x => (x.name, x.description)) = [("Roadmap", none)] :=
  ⟨by decide, (c2_upsert_exact_key emptyGraph "Standup" none (some "2024-01-02")).1 (by decide),
   by decide, (c2_upsert_exact_key emptyGraph "Ann" (some "PM") (some "Eng")).2.1 (by decide),
   by decide, (c2_upsert_exact_key emptyGraph "Roadmap" none none).2.2 (by decide)⟩



/-! ### Lemmas for relationship creation (C4) -/

theorem relBeq_iff (r : Rel) (a : Nat) (t : String) (b : Nat) :
    (r.fromId == a && r.relType == t && r.toId == b) = true ↔ r = ⟨a, t, b⟩ := by
  cases r
  simp [Rel.mk.injEq, and_assoc]

theorem mergeRel_mem (rels : List Rel) (a : Nat) (t : String) (b : Nat) (r : Rel) :
    r ∈ mergeRel rels a t b ↔ r ∈ rels ∨ r = ⟨a, t, b⟩ := by
  unfold mergeRel
  by_cases h : rels.any (fun r => r.fromId == a && r.relType == t && r.toId == b) = true
  · rw [if_pos h]
    rcases List.any_eq_true.mp h with ⟨x, hx, hbx⟩
    have hx2 : x = ⟨a, t, b⟩ := (relBeq_iff x a t b).mp hbx
    constructor
    · exact Or.inl
    · rintro (hr | hr)
      · exact hr
      · rw [hr, ← hx2]; exact hx
  · rw [if_neg h]
    simp [List.mem_append]

theorem mergeRel_of_mem (rels : List Rel) (a : Nat) (t : String) (b : Nat)
    (h : (⟨a, t, b⟩ : Rel) ∈ rels) : mergeRel rels a t b = rels := by
  unfold mergeRel
  rw [if_pos]
  exact List.any_eq_true.mpr ⟨⟨a, t, b⟩, h, (relBeq_iff _ a t b).mpr rfl⟩

theorem mergeRel_nodup (rels : List Rel) (a : Nat) (t : String) (b : Nat)
    (h : rels.Nodup) : (mergeRel rels a t b).Nodup := by
  unfold mergeRel
  by_cases hc : rels.any (fun r => r.fromId == a && r.relType == t && r.toId == b) = true
  · rw [if_pos hc]; exact h
  · rw [if_neg hc]
    have hnm : (⟨a, t, b⟩ : Rel) ∉ rels := by
      intro hm
      exact hc (List.any_eq_true.mpr ⟨_, hm, (relBeq_iff _ a t b).mpr rfl⟩)
    simp [List.nodup_append, h, hnm]

theorem innerFold_mem (a : Nat) (t : String) (bs : List Nat) (acc : List Rel) (r : Rel) :
    r ∈ bs.foldl (fun ac b => mergeRel ac a t b) acc ↔ r ∈ acc ∨ ∃ b ∈ bs, r = ⟨a, t, b⟩ := by
  induction bs generalizing acc with
  | nil => simp
  | cons b rest ih =>
    rw [List.foldl_cons, ih, mergeRel_mem]
    constructor
    · rintro ((h | h) | ⟨b', hb', h⟩)
      · exact Or.inl h
      · exact Or.inr ⟨b, by simp, h⟩
      · exact Or.inr ⟨b', by simp [hb'], h⟩
    · rintro (h | ⟨b', hb', h⟩)
      · exact Or.inl (Or.inl h)
      · rcases List.mem_cons.mp hb' with hb | hb
        · exact Or.inl (Or.inr (by rw [h, hb]))
        · exact Or.inr ⟨b', hb, h⟩

theorem outerFold_mem (t : String) (as bs : List Nat) (acc : List Rel) (r : Rel) :
    r ∈ as.foldl (fun ac a => bs.foldl (fun ac2 b => mergeRel ac2 a t b) ac) acc
      ↔ r ∈ acc ∨ ∃ a ∈ as, ∃ b ∈ bs, r = ⟨a, t, b⟩ := by
  induction as generalizing acc with
  | nil => simp
  | cons a rest ih =>
    rw [List.foldl_cons, ih, innerFold_mem]
    constructor
    · rintro ((h | ⟨b, hb, h⟩) | ⟨a', ha', b, hb, h⟩)
      · exact Or.inl h
      · exact Or.inr ⟨a, by simp, b, hb, h⟩
      · exact Or.inr ⟨a', by simp [ha'], b, hb, h⟩
    · rintro (h | ⟨a', ha', b, hb, h⟩)
      · exact Or.inl (Or.inl h)
      · rcases List.mem_cons.mp ha' with ha | ha
        · exact Or.inl (Or.inr ⟨b, hb, by rw [h, ha]⟩)
        · exact Or.inr ⟨a', ha, b, hb, h⟩

theorem innerFold_nochange (a : Nat) (t : String) (bs : List Nat) (acc : List Rel)
    (h : ∀ b ∈ bs, (⟨a, t, b⟩ : Rel) ∈ acc) :
    bs.foldl (fun ac b => mergeRel ac a t b) acc = acc := by
  induction bs with
  | nil => rfl
  | cons b rest ih =>
    rw [List.foldl_cons, mergeRel_of_mem _ _ _ _ (h b (by simp))]
    exact ih (fun b' hb' => h b' (by simp [hb']))

theorem outerFold_nochange (t : String) (as bs : List Nat) (acc : List Rel)
    (h : ∀ a ∈ as, ∀ b ∈ bs, (⟨a, t, b⟩ : Rel) ∈ acc) :
    as.foldl (fun ac a => bs.foldl (fun ac2 b => mergeRel ac2 a t b) ac) acc = acc := by
  induction as with
  | nil => rfl
  | cons a rest ih =>
    rw [List.foldl_cons, innerFold_nochange a t bs acc (h a (by simp))]
    exact ih (fun a' ha' => h a' (by simp [ha']))

theorem innerFold_nodup (a : Nat) (t : String) (bs : List Nat) (acc : List Rel)
    (h : acc.Nodup) : (bs.foldl (fun ac b => mergeRel ac a t b) acc).Nodup := by
  induction bs generalizing acc with
  | nil => exact h
  | cons b rest ih => exact ih _ (mergeRel_nodup _ _ _ _ h)

theorem outerFold_nodup (t : String) (as bs : List Nat) (acc : List Rel)
    (h : acc.Nodup) :
    (as.foldl (fun ac a => bs.foldl (fun ac2 b => mergeRel ac2 a t b) ac) acc).Nodup := by
  induction as generalizing acc with
  | nil => exact h
  | cons a rest ih => exact ih _ (innerFold_nodup _ _ _ _ h)

theorem matchingIds_mem (g : GraphState) (label prop value : String) (i : Nat) :
    i ∈ matchingIds g label prop value
      ↔ ∃ stored : String, (i, some stored) ∈ labelProps g label prop
          ∧ (strContains (lowerS stored) (lowerS value)
             || strContains (lowerS value) (lowerS stored)) = true := by
  unfold matchingIds
  rw [List.mem_filterMap]
  constructor
  · rintro ⟨⟨j, ov⟩, hmem, hf⟩
    cases ov with
    | none => simp at hf
    | some stored =>
      by_cases hm : fuzzyMatch stored value = true
      · simp only [hm, if_true] at hf
        cases hf
        exact ⟨stored, hmem, hm⟩
      · simp only [Bool.not_eq_true] at hm
        simp [hm] at hf
  · rintro ⟨stored, hmem, hb⟩
    refine ⟨(i, some stored), hmem, ?_⟩
    simp only [fuzzyMatch] at *
    simp [hb]

/-- Claim C4: `create_relationship` matches an endpoint node exactly when the
stored identifying property and the supplied value contain one another
case-insensitively (in either direction); it inserts the relationship for
every matched pair only when not already present (merge on the
relationship), so it preserves duplicate-freeness and a repeated call
changes nothing. -/
theorem c4_create_relationship_fuzzy_merge :
    ∀ (g : GraphState) (fl fp fv rt tl tp tv : String),
      (∀ i, i ∈ matchingIds g fl fp fv
          ↔ ∃ stored : String, (i, some stored) ∈ labelProps g fl fp
              ∧ (strContains (lowerS stored) (lowerS fv)
                 || strContains (lowerS fv) (lowerS stored)) = true)
      ∧ (∀ a b, (⟨a, rt, b⟩ : Rel) ∈ (create_relationship g fl fp fv rt tl tp tv).1.rels
          ↔ ((⟨a, rt, b⟩ : Rel) ∈ g.rels
              ∨ (a ∈ matchingIds g fl fp fv ∧ b ∈ matchingIds g tl tp tv)))
      ∧ (g.rels.Nodup → (create_relationship g fl fp fv rt tl tp tv).1.rels.Nodup)
      ∧ (create_relationship (create_relationship g fl fp fv rt tl tp tv).1 fl fp fv rt tl tp tv).1
          = (create_relationship g fl fp fv rt tl tp tv).1 := by
  intro g fl fp fv rt tl tp tv
  refine ⟨matchingIds_mem g fl fp fv, ?_, ?_, ?_⟩
  · intro a b
    show (⟨a, rt, b⟩ : Rel) ∈ (matchingIds g fl fp fv).foldl
        (fun acc x => (matchingIds g tl tp tv).foldl (fun acc2 y => mergeRel acc2 x rt y) acc) g.rels
      ↔ _
    rw [outerFold_mem]
    constructor
    · rintro (h | ⟨a', ha', b', hb', h⟩)
      · exact Or.inl h
      · rcases Rel.mk.injEq _ _ _ _ _ _ ▸ h with ⟨h1, h2, h3⟩
        exact Or.inr ⟨h1 ▸ ha', h3 ▸ hb'⟩
    · rintro (h | ⟨ha, hb⟩)
      · exact Or.inl h
      · exact Or.inr ⟨a, ha, b, hb, rfl⟩
  · intro h
    exact outerFold_nodup rt _ _ _ h
  · have key : ∀ a ∈ matchingIds g fl fp fv, ∀ b ∈ matchingIds g tl tp tv,
        (⟨a, rt, b⟩ : Rel) ∈ (create_relationship g fl fp fv rt tl tp tv).1.rels :=
      fun a ha b hb => (outerFold_mem rt _ _ g.rels _).mpr (Or.inr ⟨a, ha, b, hb, rfl⟩)
    have hR := outerFold_nochange rt (matchingIds g fl fp fv) (matchingIds g tl tp tv)
        ((create_relationship g fl fp fv rt tl tp tv).1.rels) key
    show ({ (create_relationship g fl fp fv rt tl tp tv).1 with
              rels := (matchingIds g fl fp fv).foldl
                (fun ac a => (matchingIds g tl tp tv).foldl (fun ac2 b => mergeRel ac2 a rt b) ac)
                (create_relationship g fl fp fv rt tl tp tv).1.rels } : GraphState)
        = (create_relationship g fl fp fv rt tl tp tv).1
    rw [hR]

/-- Witness for C4 on a concrete graph where "Lee" fuzzily matches both
"Lee Park" and "Ashlee Kim". -/
theorem c4_create_relationship_fuzzy_merge_witness :
    demoGraph.rels.Nodup
    ∧ (create_relationship demoGraph "Person" "name" "Lee" "ATTENDED"
        "Meeting" "title" "Sync").1.rels.Nodup :=
  ⟨by decide,
   (c4_create_relationship_fuzzy_merge demoGraph "Person" "name" "Lee" "ATTENDED"
      "Meeting" "title" "Sync").2.2.1 (by decide)⟩


/-! ### Generic fold lemmas and name-presence lemmas (C3) -/

theorem foldl_proj_eq {α γ : Type} (f : GraphState → α → GraphState) (proj : GraphState → γ)
    (h : ∀ g a, proj (f g a) = proj g) :
    ∀ (l : List α) (g : GraphState), proj (l.foldl f g) = proj g := by
  intro l
  induction l with
  | nil => intro g; rfl
  | cons a rest ih => intro g; rw [List.foldl_cons, ih, h]

theorem foldl_len_add {α : Type} (f : GraphState → α → GraphState) (proj : GraphState → Nat)
    (h : ∀ g a, proj (f g a) = proj g + 1) :
    ∀ (l : List α) (g : GraphState), proj (l.foldl f g) = proj g + l.length := by
  intro l
  induction l with
  | nil => intro g; rfl
  | cons a rest ih =>
    intro g
    rw [List.foldl_cons, ih, h, List.length_cons]
    omega

theorem foldl_len_ge {α : Type} (f : GraphState → α → GraphState) (proj : GraphState → Nat)
    (h : ∀ g a, proj g ≤ proj (f g a)) :
    ∀ (l : List α) (g : GraphState), proj g ≤ proj (l.foldl f g) := by
  intro l
  induction l with
  | nil => intro g; exact le_refl _
  | cons a rest ih =>
    intro g
    rw [List.foldl_cons]
    exact le_trans (h g a) (ih _)

theorem personAny_iff (g : GraphState) (n : String) :
    (g.persons.any (fun p => p.name == n) = true) ↔ n ∈ personNames g := by
  simp [personNames, List.any_eq_true, List.mem_map]

theorem personNames_create_of_mem (g : GraphState) (n : String) (r : Option String)
    (h : n ∈ personNames g) : personNames (create_person g n r) = personNames g := by
  unfold create_person
  rw [if_pos ((personAny_iff g n).mpr h)]
  show ((g.persons.map _).map PersonNode.name) = _
  rw [List.map_map]
  apply List.map_congr_left
  intro p _
  by_cases hb : (p.name == n) = true <;> simp [Function.comp, hb]

theorem personNames_create_of_not_mem (g : GraphState) (n : String) (r : Option String)
    (h : n ∉ personNames g) : personNames (create_person g n r) = personNames g ++ [n] := by
  unfold create_person
  rw [if_neg]
  · show ((g.persons ++ [(⟨g.nextId, n, r⟩ : PersonNode)]).map PersonNode.name) = _
    simp [personNames]
  · intro hc
    exact h ((personAny_iff g n).mp hc)

theorem mem_personNames_create (g : GraphState) (n : String) (r : Option String) :
    n ∈ personNames (create_person g n r) := by
  by_cases h : n ∈ personNames g
  · rw [personNames_create_of_mem g n r h]; exact h
  · rw [personNames_create_of_not_mem g n r h]; simp

theorem personNames_create_subset (g : GraphState) (n : String) (r : Option String) :
    personNames g ⊆ personNames (create_person g n r) := by
  by_cases h : n ∈ personNames g
  · rw [personNames_create_of_mem g n r h]
    exact fun x hx => hx
  · rw [personNames_create_of_not_mem g n r h]
    exact List.subset_append_left _ _

theorem persons_length_eq_names (g : GraphState) :
    g.persons.length = (personNames g).length := by
  simp [personNames]

theorem persons_create_length_of_mem (g : GraphState) (n : String) (r : Option String)
    (h : n ∈ personNames g) : (create_person g n r).persons.length = g.persons.length := by
  rw [persons_length_eq_names, persons_length_eq_names, personNames_create_of_mem g n r h]

theorem persons_create_length_ge (g : GraphState) (n : String) (r : Option String) :
    g.persons.length ≤ (create_person g n r).persons.length := by
  by_cases h : n ∈ personNames g
  · rw [persons_create_length_of_mem g n r h]
  · rw [persons_length_eq_names, persons_length_eq_names,
        personNames_create_of_not_mem g n r h]
    simp

theorem topicAny_iff (g : GraphState) (n : String) :
    (g.topics.any (fun p => p.name == n) = true) ↔ n ∈ topicNames g := by
  simp [topicNames, List.any_eq_true, List.mem_map]

theorem topicNames_create_of_mem (g : GraphState) (n : String) (r : Option String)
    (h : n ∈ topicNames g) : topicNames (create_topic g n r) = topicNames g := by
  unfold create_topic
  rw [if_pos ((topicAny_iff g n).mpr h)]
  show ((g.topics.map _).map TopicNode.name) = _
  rw [List.map_map]
  apply List.map_congr_left
  intro p _
  by_cases hb : (p.name == n) = true <;> simp [Function.comp, hb]

theorem topicNames_create_of_not_mem (g : GraphState) (n : String) (r : Option String)
    (h : n ∉ topicNames g) : topicNames (create_topic g n r) = topicNames g ++ [n] := by
  unfold create_topic
  rw [if_neg]
  · show ((g.topics ++ [(⟨g.nextId, n, r⟩ : TopicNode)]).map TopicNode.name) = _
    simp [topicNames]
  · intro hc
    exact h ((topicAny_iff g n).mp hc)

theorem mem_topicNames_create (g : GraphState) (n : String) (r : Option String) :
    n ∈ topicNames (create_topic g n r) := by
  by_cases h : n ∈ topicNames g
  · rw [topicNames_create_of_mem g n r h]; exact h
  · rw [topicNames_create_of_not_mem g n r h]; simp

theorem topicNames_create_subset (g : GraphState) (n : String) (r : Option String) :
    topicNames g ⊆ topicNames (create_topic g n r) := by
  by_cases h : n ∈ topicNames g
  · rw [topicNames_create_of_mem g n r h]
    exact fun x hx => hx
  · rw [topicNames_create_of_not_mem g n r h]
    exact List.subset_append_left _ _

theorem topics_length_eq_names (g : GraphState) :
    g.topics.length = (topicNames g).length := by
  simp [topicNames]

theorem topics_create_length_of_mem (g : GraphState) (n : String) (r : Option String)
    (h : n ∈ topicNames g) : (create_topic g n r).topics.length = g.topics.length := by
  rw [topics_length_eq_names, topics_length_eq_names, topicNames_create_of_mem g n r h]

theorem topics_create_length_ge (g : GraphState) (n : String) (r : Option String) :
    g.topics.length ≤ (create_topic g n r).topics.length := by
  by_cases h : n ∈ topicNames g
  · rw [topics_create_length_of_mem g n r h]
  · rw [topics_length_eq_names, topics_length_eq_names,
        topicNames_create_of_not_mem g n r h]
    simp

theorem meetingAny_iff (g : GraphState) (n : String) :
    (g.meetings.any (fun p => p.title == n) = true) ↔ n ∈ meetingTitles g := by
  simp [meetingTitles, List.any_eq_true, List.mem_map]

theorem meetingTitles_create_of_mem (g : GraphState) (n : String) (r : Option String)
    (h : n ∈ meetingTitles g) : meetingTitles (create_meeting g n r) = meetingTitles g := by
  unfold create_meeting
  rw [if_pos ((meetingAny_iff g n).mpr h)]
  show ((g.meetings.map _).map MeetingNode.title) = _
  rw [List.map_map]
  apply List.map_congr_left
  intro p _
  by_cases hb : (p.title == n) = true <;> simp [Function.comp, hb]

theorem meetingTitles_create_of_not_mem (g : GraphState) (n : String) (r : Option String)
    (h : n ∉ meetingTitles g) : meetingTitles (create_meeting g n r) = meetingTitles g ++ [n] := by
  unfold create_meeting
  rw [if_neg]
  · show ((g.meetings ++ [(⟨g.nextId, n, r⟩ : MeetingNode)]).map MeetingNode.title) = _
    simp [meetingTitles]
  · intro hc
    exact h ((meetingAny_iff g n).mp hc)

theorem mem_meetingTitles_create (g : GraphState) (n : String) (r : Option String) :
    n ∈ meetingTitles (create_meeting g n r) := by
  by_cases h : n ∈ meetingTitles g
  · rw [meetingTitles_create_of_mem g n r h]; exact h
  · rw [meetingTitles_create_of_not_mem g n r h]; simp

theorem meetingTitles_create_subset (g : GraphState) (n : String) (r : Option String) :
    meetingTitles g ⊆ meetingTitles (create_meeting g n r) := by
  by_cases h : n ∈ meetingTitles g
  · rw [meetingTitles_create_of_mem g n r h]
    exact fun x hx => hx
  · rw [meetingTitles_create_of_not_mem g n r h]
    exact List.subset_append_left _ _

theorem meetings_length_eq_titles (g : GraphState) :
    g.meetings.length = (meetingTitles g).length := by
  simp [meetingTitles]

theorem meetings_create_length_of_mem (g : GraphState) (n : String) (r : Option String)
    (h : n ∈ meetingTitles g) : (create_meeting g n r).meetings.length = g.meetings.length := by
  rw [meetings_length_eq_titles, meetings_length_eq_titles, meetingTitles_create_of_mem g n r h]

theorem meetings_create_length_ge (g : GraphState) (n : String) (r : Option String) :
    g.meetings.length ≤ (create_meeting g n r).meetings.length := by
  by_cases h : n ∈ meetingTitles g
  · rw [meetings_create_length_of_mem g n r h]
  · rw [meetings_length_eq_titles, meetings_length_eq_titles,
        meetingTitles_create_of_not_mem g n r h]
    simp

/-! ### Frame lemmas for the build steps (C3) -/

theorem cm_persons (g : GraphState) (t : String) (d : Option String) :
    (create_meeting g t d).persons = g.persons := by
  unfold create_meeting
  split <;> rfl

theorem cm_topics (g : GraphState) (t : String) (d : Option String) :
    (create_meeting g t d).topics = g.topics := by
  unfold create_meeting
  split <;> rfl

theorem cm_decisions (g : GraphState) (t : String) (d : Option String) :
    (create_meeting g t d).decisions = g.decisions := by
  unfold create_meeting
  split <;> rfl

theorem cm_actionItems (g : GraphState) (t : String) (d : Option String) :
    (create_meeting g t d).actionItems = g.actionItems := by
  unfold create_meeting
  split <;> rfl

theorem cm_commitments (g : GraphState) (t : String) (d : Option String) :
    (create_meeting g t d).commitments = g.commitments := by
  unfold create_meeting
  split <;> rfl

theorem bps_persons (t : String) (g : GraphState) (x : Entities.Person) :
    (buildPersonStep t g x).persons = (create_person g x.name x.role).persons := rfl

theorem bps_meetings (t : String) (g : GraphState) (x : Entities.Person) :
    (buildPersonStep t g x).meetings = g.meetings := by
  show (create_person g x.name x.role).meetings = g.meetings
  unfold create_person
  split <;> rfl

theorem bps_topics (t : String) (g : GraphState) (x : Entities.Person) :
    (buildPersonStep t g x).topics = g.topics := by
  show (create_person g x.name x.role).topics = g.topics
  unfold create_person
  split <;> rfl

theorem bps_decisions (t : String) (g : GraphState) (x : Entities.Person) :
    (buildPersonStep t g x).decisions = g.decisions := by
  show (create_person g x.name x.role).decisions = g.decisions
  unfold create_person
  split <;> rfl

theorem bps_actionItems (t : String) (g : GraphState) (x : Entities.Person) :
    (buildPersonStep t g x).actionItems = g.actionItems := by
  show (create_person g x.name x.role).actionItems = g.actionItems
  unfold create_person
  split <;> rfl

theorem bps_commitments (t : String) (g : GraphState) (x : Entities.Person) :
    (buildPersonStep t g x).commitments = g.commitments := by
  show (create_person g x.name x.role).commitments = g.commitments
  unfold create_person
  split <;> rfl

theorem bts_topics (t : String) (g : GraphState) (x : Entities.Topic) :
    (buildTopicStep t g x).topics = (create_topic g x.name x.description).topics := rfl

theorem bts_meetings (t : String) (g : GraphState) (x : Entities.Topic) :
    (buildTopicStep t g x).meetings = g.meetings := by
  show (create_topic g x.name x.description).meetings = g.meetings
  unfold create_topic
  split <;> rfl

theorem bts_persons (t : String) (g : GraphState) (x : Entities.Topic) :
    (buildTopicStep t g x).persons = g.persons := by
  show (create_topic g x.name x.description).persons = g.persons
  unfold create_topic
  split <;> rfl

theorem bts_decisions (t : String) (g : GraphState) (x : Entities.Topic) :
    (buildTopicStep t g x).decisions = g.decisions := by
  show (create_topic g x.name x.description).decisions = g.decisions
  unfold create_topic
  split <;> rfl

theorem bts_actionItems (t : String) (g : GraphState) (x : Entities.Topic) :
    (buildTopicStep t g x).actionItems = g.actionItems := by
  show (create_topic g x.name x.description).actionItems = g.actionItems
  unfold create_topic
  split <;> rfl

theorem bts_commitments (t : String) (g : GraphState) (x : Entities.Topic) :
    (buildTopicStep t g x).commitments = g.commitments := by
  show (create_topic g x.name x.description).commitments = g.commitments
  unfold create_topic
  split <;> rfl

theorem bds_decisions (t : String) (g : GraphState) (x : Entities.Decision) :
    (buildDecisionStep t g x).decisions = g.decisions ++ [⟨g.nextId, x.description⟩] := by
  unfold buildDecisionStep
  split <;> split <;> rfl

theorem bds_dec_len (t : String) (g : GraphState) (x : Entities.Decision) :
    (buildDecisionStep t g x).decisions.length = g.decisions.length + 1 := by
  rw [bds_decisions]
  simp

theorem bds_meetings (t : String) (g : GraphState) (x : Entities.Decision) :
    (buildDecisionStep t g x).meetings = g.meetings := by
  unfold buildDecisionStep
  split <;> split <;> rfl

theorem bds_persons (t : String) (g : GraphState) (x : Entities.Decision) :
    (buildDecisionStep t g x).persons = g.persons := by
  unfold buildDecisionStep
  split <;> split <;> rfl

theorem bds_topics (t : String) (g : GraphState) (x : Entities.Decision) :
    (buildDecisionStep t g x).topics = g.topics := by
  unfold buildDecisionStep
  split <;> split <;> rfl

theorem bds_actionItems (t : String) (g : GraphState) (x : Entities.Decision) :
    (buildDecisionStep t g x).actionItems = g.actionItems := by
  unfold buildDecisionStep
  split <;> split <;> rfl

theorem bds_commitments (t : String) (g : GraphState) (x : Entities.Decision) :
    (buildDecisionStep t g x).commitments = g.commitments := by
  unfold buildDecisionStep
  split <;> split <;> rfl

theorem bas_actionItems (t : String) (g : GraphState) (x : Entities.ActionItem) :
    (buildActionStep t g x).actionItems
      = g.actionItems ++ [⟨g.nextId, x.description, x.deadline, x.priority, "pending"⟩] := by
  unfold buildActionStep
  split <;> rfl

theorem bas_act_len (t : String) (g : GraphState) (x : Entities.ActionItem) :
    (buildActionStep t g x).actionItems.length = g.actionItems.length + 1 := by
  rw [bas_actionItems]
  simp

theorem bas_meetings (t : String) (g : GraphState) (x : Entities.ActionItem) :
    (buildActionStep t g x).meetings = g.meetings := by
  unfold buildActionStep
  split <;> rfl

theorem bas_persons (t : String) (g : GraphState) (x : Entities.ActionItem) :
    (buildActionStep t g x).persons = g.persons := by
  unfold buildActionStep
  split <;> rfl

theorem bas_topics (t : String) (g : GraphState) (x : Entities.ActionItem) :
    (buildActionStep t g x).topics = g.topics := by
  unfold buildActionStep
  split <;> rfl

theorem bas_decisions (t : String) (g : GraphState) (x : Entities.ActionItem) :
    (buildActionStep t g x).decisions = g.decisions := by
  unfold buildActionStep
  split <;> rfl

theorem bas_commitments (t : String) (g : GraphState) (x : Entities.ActionItem) :
    (buildActionStep t g x).commitments = g.commitments := by
  unfold buildActionStep
  split <;> rfl

theorem bcs_commitments (g : GraphState) (x : Entities.Commitment) :
    (buildCommitmentStep g x).commitments = g.commitments ++ [⟨g.nextId, x.description⟩] := by
  unfold buildCommitmentStep
  split <;> rfl

theorem bcs_com_len (g : GraphState) (x : Entities.Commitment) :
    (buildCommitmentStep g x).commitments.length = g.commitments.length + 1 := by
  rw [bcs_commitments]
  simp

theorem bcs_meetings (g : GraphState) (x : Entities.Commitment) :
    (buildCommitmentStep g x).meetings = g.meetings := by
  unfold buildCommitmentStep
  split <;> rfl

theorem bcs_persons (g : GraphState) (x : Entities.Commitment) :
    (buildCommitmentStep g x).persons = g.persons := by
  unfold buildCommitmentStep
  split <;> rfl

theorem bcs_topics (g : GraphState) (x : Entities.Commitment) :
    (buildCommitmentStep g x).topics = g.topics := by
  unfold buildCommitmentStep
  split <;> rfl

theorem bcs_decisions (g : GraphState) (x : Entities.Commitment) :
    (buildCommitmentStep g x).decisions = g.decisions := by
  unfold buildCommitmentStep
  split <;> rfl

theorem bcs_actionItems (g : GraphState) (x : Entities.Commitment) :
    (buildCommitmentStep g x).actionItems = g.actionItems := by
  unfold buildCommitmentStep
  split <;> rfl

/-! ### Projecting build_graph through its folds (C3) -/

theorem bg_unfold (g : GraphState) (e : Entities.MeetingExtraction) :
    build_graph g e
      = e.commitments.foldl buildCommitmentStep
          (e.action_items.foldl (buildActionStep e.meeting_title)
            (e.decisions.foldl (buildDecisionStep e.meeting_title)
              (e.topics.foldl (buildTopicStep e.meeting_title)
                (e.people.foldl (buildPersonStep e.meeting_title)
                  (create_meeting g e.meeting_title e.meeting_date))))) := rfl

theorem bg_persons (g : GraphState) (e : Entities.MeetingExtraction) :
    (build_graph g e).persons
      = (e.people.foldl (buildPersonStep e.meeting_title)
          (create_meeting g e.meeting_title e.meeting_date)).persons := by
  rw [bg_unfold,
      foldl_proj_eq buildCommitmentStep GraphState.persons bcs_persons e.commitments,
      foldl_proj_eq (buildActionStep e.meeting_title) GraphState.persons
        (bas_persons e.meeting_title) e.action_items,
      foldl_proj_eq (buildDecisionStep e.meeting_title) GraphState.persons
        (bds_persons e.meeting_title) e.decisions,
      foldl_proj_eq (buildTopicStep e.meeting_title) GraphState.persons
        (bts_persons e.meeting_title) e.topics]

theorem bg_topics (g : GraphState) (e : Entities.MeetingExtraction) :
    (build_graph g e).topics
      = (e.topics.foldl (buildTopicStep e.meeting_title)
          (e.people.foldl (buildPersonStep e.meeting_title)
            (create_meeting g e.meeting_title e.meeting_date))).topics := by
  rw [bg_unfold,
      foldl_proj_eq buildCommitmentStep GraphState.topics bcs_topics e.commitments,
      foldl_proj_eq (buildActionStep e.meeting_title) GraphState.topics
        (bas_topics e.meeting_title) e.action_items,
      foldl_proj_eq (buildDecisionStep e.meeting_title) GraphState.topics
        (bds_topics e.meeting_title) e.decisions]

theorem bg_meetings (g : GraphState) (e : Entities.MeetingExtraction) :
    (build_graph g e).meetings = (create_meeting g e.meeting_title e.meeting_date).meetings := by
  rw [bg_unfold,
      foldl_proj_eq buildCommitmentStep GraphState.meetings bcs_meetings e.commitments,
      foldl_proj_eq (buildActionStep e.meeting_title) GraphState.meetings
        (bas_meetings e.meeting_title) e.action_items,
      foldl_proj_eq (buildDecisionStep e.meeting_title) GraphState.meetings
        (bds_meetings e.meeting_title) e.decisions,
      foldl_proj_eq (buildTopicStep e.meeting_title) GraphState.meetings
        (bts_meetings e.meeting_title) e.topics,
      foldl_proj_eq (buildPersonStep e.meeting_title) GraphState.meetings
        (bps_meetings e.meeting_title) e.people]

theorem bg_dec_len (g : GraphState) (e : Entities.MeetingExtraction) :
    (build_graph g e).decisions.length = g.decisions.length + e.decisions.length := by
  rw [bg_unfold,
      foldl_proj_eq buildCommitmentStep (fun s => s.decisions.length)
        (fun s x => by simp only [bcs_decisions]) e.commitments,
      foldl_proj_eq (buildActionStep e.meeting_title) (fun s => s.decisions.length)
        (fun s x => by simp only [bas_decisions]) e.action_items,
      foldl_len_add (buildDecisionStep e.meeting_title) (fun s => s.decisions.length)
        (bds_dec_len e.meeting_title) e.decisions,
      foldl_proj_eq (buildTopicStep e.meeting_title) (fun s => s.decisions.length)
        (fun s x => by simp only [bts_decisions]) e.topics,
      foldl_proj_eq (buildPersonStep e.meeting_title) (fun s => s.decisions.length)
        (fun s x => by simp only [bps_decisions]) e.people,
      cm_decisions]

theorem bg_act_len (g : GraphState) (e : Entities.MeetingExtraction) :
    (build_graph g e).actionItems.length = g.actionItems.length + e.action_items.length := by
  rw [bg_unfold,
      foldl_proj_eq buildCommitmentStep (fun s => s.actionItems.length)
        (fun s x => by simp only [bcs_actionItems]) e.commitments,
      foldl_len_add (buildActionStep e.meeting_title) (fun s => s.actionItems.length)
        (bas_act_len e.meeting_title) e.action_items,
      foldl_proj_eq (buildDecisionStep e.meeting_title) (fun s => s.actionItems.length)
        (fun s x => by simp only [bds_actionItems]) e.decisions,
      foldl_proj_eq (buildTopicStep e.meeting_title) (fun s => s.actionItems.length)
        (fun s x => by simp only [bts_actionItems]) e.topics,
      foldl_proj_eq (buildPersonStep e.meeting_title) (fun s => s.actionItems.length)
        (fun s x => by simp only [bps_actionItems]) e.people,
      cm_actionItems]

theorem bg_com_len (g : GraphState) (e : Entities.MeetingExtraction) :
    (build_graph g e).commitments.length = g.commitments.length + e.commitments.length := by
  rw [bg_unfold,
      foldl_len_add buildCommitmentStep (fun s => s.commitments.length)
        bcs_com_len e.commitments,
      foldl_proj_eq (buildActionStep e.meeting_title) (fun s => s.commitments.length)
        (fun s x => by simp only [bas_commitments]) e.action_items,
      foldl_proj_eq (buildDecisionStep e.meeting_title) (fun s => s.commitments.length)
        (fun s x => by simp only [bds_commitments]) e.decisions,
      foldl_proj_eq (buildTopicStep e.meeting_title) (fun s => s.commitments.length)
        (fun s x => by simp only [bts_commitments]) e.topics,
      foldl_proj_eq (buildPersonStep e.meeting_title) (fun s => s.commitments.length)
        (fun s x => by simp only [bps_commitments]) e.people,
      cm_commitments]

/-! ### People-fold and topic-fold lemmas (C3) -/

theorem bstep_names_of_mem (t : String) (g : GraphState) (x : Entities.Person)
    (h : x.name ∈ personNames g) :
    personNames (buildPersonStep t g x) = personNames g :=
  personNames_create_of_mem g x.name x.role h

theorem bstep_names_subset (t : String) (g : GraphState) (x : Entities.Person) :
    personNames g ⊆ personNames (buildPersonStep t g x) :=
  personNames_create_subset g x.name x.role

theorem bstep_mem_names (t : String) (g : GraphState) (x : Entities.Person) :
    x.name ∈ personNames (buildPersonStep t g x) :=
  mem_personNames_create g x.name x.role

theorem pf_names_subset (t : String) (l : List Entities.Person) :
    ∀ g : GraphState, personNames g ⊆ personNames (l.foldl (buildPersonStep t) g) := by
  induction l with
  | nil => intro g; exact fun x hx => hx
  | cons a rest ih =>
    intro g
    rw [List.foldl_cons]
    exact fun x hx => ih _ (bstep_names_subset t g a hx)

theorem pf_mem_names (t : String) (l : List Entities.Person) :
    ∀ g : GraphState, ∀ x ∈ l, x.name ∈ personNames (l.foldl (buildPersonStep t) g) := by
  induction l with
  | nil => intro g x hx; exact absurd hx (List.not_mem_nil x)
  | cons a rest ih =>
    intro g x hx
    rw [List.foldl_cons]
    rcases List.mem_cons.mp hx with h | h
    · subst h
      exact pf_names_subset t rest _ (bstep_mem_names t g x)
    · exact ih _ x h

theorem pf_names_of_all_mem (t : String) (l : List Entities.Person) :
    ∀ g : GraphState, (∀ x ∈ l, x.name ∈ personNames g) →
      personNames (l.foldl (buildPersonStep t) g) = personNames g := by
  induction l with
  | nil => intro g _; rfl
  | cons a rest ih =>
    intro g h
    rw [List.foldl_cons]
    have hstep : personNames (buildPersonStep t g a) = personNames g :=
      bstep_names_of_mem t g a (h a (by simp))
    rw [ih _ (fun x hx => by rw [hstep]; exact h x (by simp [hx])), hstep]

theorem pf_len_ge (t : String) (l : List Entities.Person) (g : GraphState) :
    g.persons.length ≤ (l.foldl (buildPersonStep t) g).persons.length :=
  foldl_len_ge (buildPersonStep t) (fun s => s.persons.length)
    (fun s x => persons_create_length_ge s x.name x.role) l g

theorem tstep_names_of_mem (t : String) (g : GraphState) (x : Entities.Topic)
    (h : x.name ∈ topicNames g) :
    topicNames (buildTopicStep t g x) = topicNames g :=
  topicNames_create_of_mem g x.name x.description h

theorem tstep_names_subset (t : String) (g : GraphState) (x : Entities.Topic) :
    topicNames g ⊆ topicNames (buildTopicStep t g x) :=
  topicNames_create_subset g x.name x.description

theorem tstep_mem_names (t : String) (g : GraphState) (x : Entities.Topic) :
    x.name ∈ topicNames (buildTopicStep t g x) :=
  mem_topicNames_create g x.name x.description

theorem tf_names_subset (t : String) (l : List Entities.Topic) :
    ∀ g : GraphState, topicNames g ⊆ topicNames (l.foldl (buildTopicStep t) g) := by
  induction l with
  | nil => intro g; exact fun x hx => hx
  | cons a rest ih =>
    intro g
    rw [List.foldl_cons]
    exact fun x hx => ih _ (tstep_names_subset t g a hx)

theorem tf_mem_names (t : String) (l : List Entities.Topic) :
    ∀ g : GraphState, ∀ x ∈ l, x.name ∈ topicNames (l.foldl (buildTopicStep t) g) := by
  induction l with
  | nil => intro g x hx; exact absurd hx (List.not_mem_nil x)
  | cons a rest ih =>
    intro g x hx
    rw [List.foldl_cons]
    rcases List.mem_cons.mp hx with h | h
    · subst h
      exact tf_names_subset t rest _ (tstep_mem_names t g x)
    · exact ih _ x h

theorem tf_names_of_all_mem (t : String) (l : List Entities.Topic) :
    ∀ g : GraphState, (∀ x ∈ l, x.name ∈ topicNames g) →
      topicNames (l.foldl (buildTopicStep t) g) = topicNames g := by
  induction l with
  | nil => intro g _; rfl
  | cons a rest ih =>
    intro g h
    rw [List.foldl_cons]
    have hstep : topicNames (buildTopicStep t g a) = topicNames g :=
      tstep_names_of_mem t g a (h a (by simp))
    rw [ih _ (fun x hx => by rw [hstep]; exact h x (by simp [hx])), hstep]

theorem tf_len_ge (t : String) (l : List Entities.Topic) (g : GraphState) :
    g.topics.length ≤ (l.foldl (buildTopicStep t) g).topics.length :=
  foldl_len_ge (buildTopicStep t) (fun s => s.topics.length)
    (fun s x => topics_create_length_ge s x.name x.description) l g

theorem nodup_names_length_le (names : List String) (others : List String)
    (hd : names.Nodup) (hm : ∀ n ∈ names, n ∈ others) :
    names.length ≤ others.length :=
  (List.subperm_of_subset hd hm).length_le

theorem personNames_eq_of_persons (g1 g2 : GraphState) (h : g1.persons = g2.persons) :
    personNames g1 = personNames g2 := by
  unfold personNames
  rw [h]

theorem topicNames_eq_of_topics (g1 g2 : GraphState) (h : g1.topics = g2.topics) :
    topicNames g1 = topicNames g2 := by
  unfold topicNames
  rw [h]

theorem meetingTitles_eq_of_meetings (g1 g2 : GraphState) (h : g1.meetings = g2.meetings) :
    meetingTitles g1 = meetingTitles g2 := by
  unfold meetingTitles
  rw [h]

/-- Claim C3 (amended): building a graph never decreases node counts; it
adds exactly D, A, C new Decision/ActionItem/Commitment nodes (never
deduplicated) so re-running the same extraction adds D+A+C more; re-running
adds no further Meeting/Person/Topic nodes; and Person/Topic counts reach
N resp. T provided the extraction's person resp. topic names are pairwise
distinct (with duplicate names the MERGE collapses them, see the
counterexample). -/
theorem c3_build_graph_node_counts :
    ∀ (g : GraphState) (e : Entities.MeetingExtraction),
      (g.meetings.length ≤ (build_graph g e).meetings.length
        ∧ g.persons.length ≤ (build_graph g e).persons.length
        ∧ g.topics.length ≤ (build_graph g e).topics.length)
      ∧ ((build_graph g e).decisions.length = g.decisions.length + e.decisions.length
        ∧ (build_graph g e).actionItems.length = g.actionItems.length + e.action_items.length
        ∧ (build_graph g e).commitments.length = g.commitments.length + e.commitments.length)
      ∧ ((e.people.map Entities.Person.name).Nodup →
          e.people.length ≤ (build_graph g e).persons.length)
      ∧ ((e.topics.map Entities.Topic.name).Nodup →
          e.topics.length ≤ (build_graph g e).topics.length)
      ∧ ((build_graph (build_graph g e) e).meetings.length = (build_graph g e).meetings.length
        ∧ (build_graph (build_graph g e) e).persons.length = (build_graph g e).persons.length
        ∧ (build_graph (build_graph g e) e).topics.length = (build_graph g e).topics.length)
      ∧ ((build_graph (build_graph g e) e).decisions.length
            = (build_graph g e).decisions.length + e.decisions.length
        ∧ (build_graph (build_graph g e) e).actionItems.length
            = (build_graph g e).actionItems.length + e.action_items.length
        ∧ (build_graph (build_graph g e) e).commitments.length
            = (build_graph g e).commitments.length + e.commitments.length) := by
  intro g e
  refine ⟨⟨?_, ?_, ?_⟩, ⟨bg_dec_len g e, bg_act_len g e, bg_com_len g e⟩,
          ?_, ?_, ⟨?_, ?_, ?_⟩,
          ⟨bg_dec_len _ e, bg_act_len _ e, bg_com_len _ e⟩⟩
  · -- meetings never decrease
    rw [bg_meetings]
    exact meetings_create_length_ge g e.meeting_title e.meeting_date
  · -- persons never decrease
    rw [bg_persons]
    calc g.persons.length
        = (create_meeting g e.meeting_title e.meeting_date).persons.length := by
          rw [cm_persons]
      _ ≤ _ := pf_len_ge e.meeting_title e.people _
  · -- topics never decrease
    rw [bg_topics]
    calc g.topics.length
        = (create_meeting g e.meeting_title e.meeting_date).topics.length := by
          rw [cm_topics]
      _ = (e.people.foldl (buildPersonStep e.meeting_title)
            (create_meeting g e.meeting_title e.meeting_date)).topics.length := by
          rw [foldl_proj_eq (buildPersonStep e.meeting_title) GraphState.topics
            (bps_topics e.meeting_title) e.people]
      _ ≤ _ := tf_len_ge e.meeting_title e.topics _
  · -- distinct person names reach N
    intro hd
    rw [bg_persons, persons_length_eq_names]
    have hm : ∀ n ∈ e.people.map Entities.Person.name,
        n ∈ personNames (e.people.foldl (buildPersonStep e.meeting_title)
          (create_meeting g e.meeting_title e.meeting_date)) := by
      intro n hn
      rcases List.mem_map.mp hn with ⟨x, hx, hxe⟩
      rw [← hxe]
      exact pf_mem_names e.meeting_title e.people _ x hx
    calc e.people.length
        = (e.people.map Entities.Person.name).length := by rw [List.length_map]
      _ ≤ _ := nodup_names_length_le _ _ hd hm
  · -- distinct topic names reach T
    intro hd
    rw [bg_topics, topics_length_eq_names]
    have hm : ∀ n ∈ e.topics.map Entities.Topic.name,
        n ∈ topicNames (e.topics.foldl (buildTopicStep e.meeting_title)
          (e.people.foldl (buildPersonStep e.meeting_title)
            (create_meeting g e.meeting_title e.meeting_date))) := by
      intro n hn
      rcases List.mem_map.mp hn with ⟨x, hx, hxe⟩
      rw [← hxe]
      exact tf_mem_names e.meeting_title e.topics _ x hx
    calc e.topics.length
        = (e.topics.map Entities.Topic.name).length := by rw [List.length_map]
      _ ≤ _ := nodup_names_length_le _ _ hd hm
  · -- re-run adds no Meeting node
    rw [bg_meetings (build_graph g e) e]
    have ht : e.meeting_title ∈ meetingTitles (build_graph g e) := by
      rw [meetingTitles_eq_of_meetings _ _ (bg_meetings g e)]
      exact mem_meetingTitles_create g e.meeting_title e.meeting_date
    exact meetings_create_length_of_mem _ e.meeting_title e.meeting_date ht
  · -- re-run adds no Person node
    rw [bg_persons (build_graph g e) e]
    have hnames0 : personNames (create_meeting (build_graph g e) e.meeting_title e.meeting_date)
        = personNames (build_graph g e) :=
      personNames_eq_of_persons _ _ (cm_persons _ e.meeting_title e.meeting_date)
    have hG : personNames (build_graph g e)
        = personNames (e.people.foldl (buildPersonStep e.meeting_title)
            (create_meeting g e.meeting_title e.meeting_date)) :=
      personNames_eq_of_persons _ _ (bg_persons g e)
    have hall : ∀ x ∈ e.people,
        x.name ∈ personNames (create_meeting (build_graph g e) e.meeting_title e.meeting_date) := by
      intro x hx
      rw [hnames0, hG]
      exact pf_mem_names e.meeting_title e.people _ x hx
    rw [persons_length_eq_names, persons_length_eq_names,
        pf_names_of_all_mem e.meeting_title e.people _ hall, hnames0]
  · -- re-run adds no Topic node
    rw [bg_topics (build_graph g e) e]
    have hY : (e.people.foldl (buildPersonStep e.meeting_title)
        (create_meeting (build_graph g e) e.meeting_title e.meeting_date)).topics
        = (build_graph g e).topics := by
      rw [foldl_proj_eq (buildPersonStep e.meeting_title) GraphState.topics
            (bps_topics e.meeting_title) e.people,
          cm_topics]
    have hnames0 : topicNames (e.people.foldl (buildPersonStep e.meeting_title)
        (create_meeting (build_graph g e) e.meeting_title e.meeting_date))
        = topicNames (build_graph g e) :=
      topicNames_eq_of_topics _ _ hY
    have hG : topicNames (build_graph g e)
        = topicNames (e.topics.foldl (buildTopicStep e.meeting_title)
            (e.people.foldl (buildPersonStep e.meeting_title)
              (create_meeting g e.meeting_title e.meeting_date))) :=
      topicNames_eq_of_topics _ _ (bg_topics g e)
    have hall : ∀ x ∈ e.topics,
        x.name ∈ topicNames (e.people.foldl (buildPersonStep e.meeting_title)
          (create_meeting (build_graph g e) e.meeting_title e.meeting_date)) := by
      intro x hx
      rw [hnames0, hG]
      exact tf_mem_names e.meeting_title e.topics _ x hx
    rw [topics_length_eq_names, topics_length_eq_names,
        tf_names_of_all_mem e.meeting_title e.topics _ hall, hnames0]

/-- Counterexample to C3 as stated: an extraction naming the same person
twice yields a single Person node, so the Person count stays below N. -/
theorem c3_dup_names_counterexample :
    dupExtraction.people.length = 2
    ∧ (get_node_counts (build_graph emptyGraph dupExtraction)).personCount = 1
    ∧ ¬ (dupExtraction.people.length
          ≤ (get_node_counts (build_graph emptyGraph dupExtraction)).personCount) := by
  refine ⟨rfl, by decide, by decide⟩

/-- Witness for C3 at a distinct-name extraction from the empty graph. -/
theorem c3_build_graph_node_counts_witness :
    (sampleExtraction.people.map Entities.Person.name).Nodup
    ∧ sampleExtraction.people.length
        ≤ (build_graph emptyGraph sampleExtraction).persons.length
    ∧ (sampleExtraction.topics.map Entities.Topic.name).Nodup
    ∧ sampleExtraction.topics.length
        ≤ (build_graph emptyGraph sampleExtraction).topics.length :=
  ⟨by decide,
   (c3_build_graph_node_counts emptyGraph sampleExtraction).2.2.1 (by decide),
   by decide,
   (c3_build_graph_node_counts emptyGraph sampleExtraction).2.2.2.1 (by decide)⟩


/-! ### Extractor retry behaviour (C5) -/

/-- Counterexample to C5 as stated: with a provider failing on every
attempt, `extract` raises tenacity's `RetryError` wrapping the provider's
last exception — not the provider's exception unchanged. -/
theorem c5_retry_error_counterexample :
    extractModel failingProvider
      = Except.error (PyError.retryError (PyError.providerError "boom"))
    ∧ (Except.error (PyError.retryError (PyError.providerError "boom"))
        : Except PyError Entities.MeetingExtraction)
      ≠ Except.error (PyError.providerError "boom") := by
  refine ⟨rfl, fun h => ?_⟩
  injection h with h2
  exact PyError.noConfusion h2

/-- Claim C5 (amended): `extract` attempts the call at most 3 times with
waits of `max(2, min(2^(n-1), 10))` seconds (2s, 2s — base 2s, capped at
10s); when all 3 attempts fail the caller sees `RetryError` wrapping the
last provider failure (tenacity's default `reraise=False`), not the
provider's exception unchanged; `extract_safe` never raises and returns
`none` exactly on failure. -/
theorem c5_extract_retry_behaviour :
    ∀ p : Provider,
      (1 ≤ lastAttempt p 2 1 ∧ lastAttempt p 2 1 ≤ 3)
      ∧ (waitSeconds 1 = 2 ∧ waitSeconds 2 = 2)
      ∧ (∀ n : Nat, 2 ≤ waitSeconds n ∧ waitSeconds n ≤ 10)
      ∧ (∀ e1 e2 e3 : PyError,
          p 1 = Except.error e1 → p 2 = Except.error e2 → p 3 = Except.error e3 →
          extractModel p = Except.error (PyError.retryError e3))
      ∧ (∀ a, p 1 = Except.ok a → extractModel p = Except.ok a)
      ∧ (∀ err, extractModel p = Except.error err → extract_safe p = none)
      ∧ (∀ a, extractModel p = Except.ok a → extract_safe p = some a) := by
  intro p
  refine ⟨?_, ⟨by decide, by decide⟩, ?_, ?_, ?_, ?_, ?_⟩
  · have hla : lastAttempt p 2 1 = 1 ∨ lastAttempt p 2 1 = 2 ∨ lastAttempt p 2 1 = 3 := by
      cases hp1 : p 1 with
      | ok a => left; simp [lastAttempt, hp1]
      | error e =>
        cases hp2 : p 2 with
        | ok a => right; left; simp [lastAttempt, hp1, hp2]
        | error e2 =>
          cases hp3 : p 3 with
          | ok a => right; right; simp [lastAttempt, hp1, hp2, hp3]
          | error e3 => right; right; simp [lastAttempt, hp1, hp2, hp3]
    rcases hla with h | h | h <;> rw [h] <;> exact ⟨by omega, by omega⟩
  · intro n
    refine ⟨le_max_left _ _, max_le (by omega) (min_le_right _ _)⟩
  · intro e1 e2 e3 h1 h2 h3
    simp [extractModel, retryCall, h1, h2, h3]
  · intro a h
    simp [extractModel, retryCall, h]
  · intro err h
    simp [extract_safe, h]
  · intro a h
    simp [extract_safe, h]

/-- Witness for C5 at an always-failing and an immediately-succeeding provider. -/
theorem c5_extract_retry_behaviour_witness :
    failingProvider 1 = Except.error (PyError.providerError "boom")
    ∧ extractModel failingProvider
        = Except.error (PyError.retryError (PyError.providerError "boom"))
    ∧ extract_safe failingProvider = none
    ∧ extractModel okProvider = Except.ok trivialExtraction
    ∧ extract_safe okProvider = some trivialExtraction :=
  ⟨rfl,
   (c5_extract_retry_behaviour failingProvider).2.2.2.1 _ _ _ rfl rfl rfl,
   (c5_extract_retry_behaviour failingProvider).2.2.2.2.2.1 _
     ((c5_extract_retry_behaviour failingProvider).2.2.2.1 _ _ _ rfl rfl rfl),
   (c5_extract_retry_behaviour okProvider).2.2.2.2.1 _ rfl,
   (c5_extract_retry_behaviour okProvider).2.2.2.2.2.2 _
     ((c5_extract_retry_behaviour okProvider).2.2.2.2.1 _ rfl)⟩

end Lexigraph
